import Mathlib

/-!
Verification development for the twodeeparticles particle-system library.

The embedding models the Go sources shallowly:

* time.Time and time.Duration are integers counting nanoseconds (the Go
  representation of time.Duration); the float64 value of d.Seconds() is the
  exact rational d / 1e9;
* float64 arithmetic of the simulation is modelled by exact rational
  arithmetic (ℚ); the float64 value of math.Pi is the exact rational
  884279719003555 / 2^48, which is what the Go constant rounds to;
* Vector (vector.go) is modelled over ℝ because Magnitude takes a real
  square root;
* pointer identity of pooled particles is modelled by a ghost id field,
  allocated from a ghost nextId counter (sync.Pool is modelled as a free
  list);
* the DeathFunc callback is modelled as a ghost event trace: the field
  DeathFunc : Bool records whether a callback is configured, and each call
  appends a DeathEvent recording the particle id together with the live set
  and the pool at the moment of the call;
* the UpdateFunc callback can only mutate a particle through Kill, so it is
  modelled as a function returning whether it killed the particle;
* sync.Once is modelled by an initialized flag, re-armed by Reset;
* the unbounded convergence loop of ParticleSystem.Update takes explicit
  fuel and returns none when the fuel is exhausted (the Go loop can diverge
  for pathological behavior functions); the emission while-loop of
  spawnParticles runs for exactly floor(particlesToEmit) iterations, which
  is precisely the number of iterations of the source loop that decrements
  the accumulator by one while it is at least one.
-/

/- Mathlib marks the kernel-level rational operations irreducible, which
prevents the elaborator from evaluating concrete runs of the embedded
program. Restore the default reducibility so that concrete counterexamples
and witnesses can be checked by decide. -/
set_option allowUnsafeReducibility true in
attribute [semireducible] Rat.add Rat.mul Rat.sub Rat.div Rat.neg Rat.inv Rat.blt Rat.floor

/-- seconds d is the exact value of the Go expression d.Seconds() for a
duration of d nanoseconds. -/
def seconds (d : ℤ) : ℚ := (d : ℚ) / 1000000000

/-- mathPi is the exact rational value of the float64 constant math.Pi. -/
def mathPi : ℚ := 884279719003555 / 281474976710656

/-- GoColor models the color.Color values the library touches: color.White
and arbitrary other colors supplied by ColorOverLifetime. -/
inductive GoColor where
  | white : GoColor
  | rgba (r g b a : ℕ) : GoColor
deriving DecidableEq

/-- DeathEvent is the ghost record of one DeathFunc invocation: the id of
the dead particle, the ids of the live set at the moment of the call, and
the ids in the pool at the moment of the call. -/
structure DeathEvent where
  pid : ℕ
  liveIds : List ℕ
  poolIds : List ℕ
deriving DecidableEq

/-- Particle mirrors the Particle struct of particle.go (the system back
pointer is dropped; operations take the system as an argument; id is the
ghost pointer identity). -/
structure Particle (α : Type) where
  id : ℕ
  lifetime : ℤ
  birthTime : ℤ
  deathTime : ℤ
  lastUpdateTime : ℤ
  isAlive : Bool
  data : Option α
  x : ℚ
  y : ℚ
  xVelocity : ℚ
  yVelocity : ℚ
  xScale : ℚ
  yScale : ℚ
  angle : ℚ
  color : GoColor
deriving DecidableEq

/-- newParticle builds the particle allocated by the pool's New function:
Go zero values for every field except color, which is set to color.White. -/
def newParticle (α : Type) (idv : ℕ) : Particle α :=
  ⟨idv, 0, 0, 0, 0, false, none, 0, 0, 0, 0, 0, 0, 0, GoColor.white⟩

/-- Particle.reset mirrors particle.go reset(): it sets isAlive, clears
data, zeroes position and velocity, sets scale to one and color to white.
It does not touch the angle, the lifetime or the timing fields, exactly as
in the source. -/
def Particle.reset {α : Type} (p : Particle α) : Particle α :=
  { p with isAlive := true, data := none, x := 0, y := 0,
           xVelocity := 0, yVelocity := 0, xScale := 1, yScale := 1,
           color := GoColor.white }

/-- Particle.aliveB mirrors particle.go alive(now): isAlive and deathTime
strictly after now. -/
def Particle.aliveB {α : Type} (p : Particle α) (now : ℤ) : Bool :=
  p.isAlive && decide (now < p.deathTime)

/-- ParticleSystem mirrors the ParticleSystem struct of system.go, plus the
ghost fields nextId and deaths and the initialized flag described in the
file header. -/
structure ParticleSystem (α : Type) where
  MaxParticles : ℤ
  DataOverLifetime : Option (Option α → ℚ → ℤ → Option α)
  DeathFunc : Bool
  UpdateFunc : Option (Particle α → ℚ → ℤ → Bool)
  EmissionRateOverTime : Option (ℤ → ℤ → ℚ)
  EmissionPositionOverTime : Option (ℤ → ℤ → ℚ × ℚ)
  LifetimeOverTime : Option (ℤ → ℤ → ℤ)
  VelocityOverLifetime : Option (Particle α → ℚ → ℤ → ℚ × ℚ)
  ScaleOverLifetime : Option (Particle α → ℚ → ℤ → ℚ × ℚ)
  ColorOverLifetime : Option (Particle α → ℚ → ℤ → GoColor)
  RotationOverLifetime : Option (Particle α → ℚ → ℤ → ℚ)
  particles : List (Particle α)
  pool : List (Particle α)
  startTime : ℤ
  lastUpdateTime : ℤ
  particlesToEmit : ℚ
  initialized : Bool
  nextId : ℕ
  deaths : List DeathEvent

/-- NewSystem mirrors system.go NewSystem(): all behavior functions unset,
no particles, an empty pool, a zero cap, and lazy initialization armed. -/
def NewSystem (α : Type) : ParticleSystem α :=
  ⟨0, none, false, none, none, none, none, none, none, none, none,
   [], [], 0, 0, 0, false, 0, []⟩

/-- ParticleSystem.Duration mirrors system.go Duration(now). -/
def ParticleSystem.Duration {α : Type} (sys : ParticleSystem α) (now : ℤ) : ℤ :=
  now - sys.startTime

/-- ParticleSystem.NumParticles mirrors system.go NumParticles(). -/
def ParticleSystem.NumParticles {α : Type} (sys : ParticleSystem α) : ℕ :=
  sys.particles.length

/-- applyUpdateFunc is step 1 of particle.go update(): call UpdateFunc if
set; the callback can only kill the particle. -/
def applyUpdateFunc {α : Type} (sys : ParticleSystem α) (t : ℚ) (delta : ℤ)
    (p : Particle α) : Particle α :=
  match sys.UpdateFunc with
  | some f => if f p t delta then { p with isAlive := false } else p
  | none => p

/-- applyData is step 2 of particle.go update(): recompute the attached
data if DataOverLifetime is set. -/
def applyData {α : Type} (sys : ParticleSystem α) (t : ℚ) (delta : ℤ)
    (p : Particle α) : Particle α :=
  match sys.DataOverLifetime with
  | some f => { p with data := f p.data t delta }
  | none => p

/-- applyVelocity is step 3 of particle.go update(): recompute the velocity
if VelocityOverLifetime is set. -/
def applyVelocity {α : Type} (sys : ParticleSystem α) (t : ℚ) (delta : ℤ)
    (p : Particle α) : Particle α :=
  match sys.VelocityOverLifetime with
  | some f => { p with xVelocity := (f p t delta).1, yVelocity := (f p t delta).2 }
  | none => p

/-- applyMove is step 4 of particle.go update(): integrate the position by
velocity times delta seconds. -/
def applyMove {α : Type} (delta : ℤ) (p : Particle α) : Particle α :=
  { p with x := p.x + p.xVelocity * seconds delta,
           y := p.y + p.yVelocity * seconds delta }

/-- applyScale is step 5 of particle.go update(): recompute the scale if
ScaleOverLifetime is set. -/
def applyScale {α : Type} (sys : ParticleSystem α) (t : ℚ) (delta : ℤ)
    (p : Particle α) : Particle α :=
  match sys.ScaleOverLifetime with
  | some f => { p with xScale := (f p t delta).1, yScale := (f p t delta).2 }
  | none => p

/-- applyRotation is step 6 of particle.go update(): accumulate the angular
velocity times delta seconds, then adjust by a single full turn when the
result exceeds two pi or is negative, exactly as in the source. -/
def applyRotation {α : Type} (sys : ParticleSystem α) (t : ℚ) (delta : ℤ)
    (p : Particle α) : Particle α :=
  match sys.RotationOverLifetime with
  | some f =>
    let a := p.angle + f p t delta * seconds delta
    { p with angle := (if 2 * mathPi < a then a - 2 * mathPi else if a < 0 then a + 2 * mathPi else a) }
  | none => p

/-- applyColor is step 7 of particle.go update(): recompute the color if
ColorOverLifetime is set. -/
def applyColor {α : Type} (sys : ParticleSystem α) (t : ℚ) (delta : ℤ)
    (p : Particle α) : Particle α :=
  match sys.ColorOverLifetime with
  | some f => { p with color := f p t delta }
  | none => p

/-- Particle.update mirrors particle.go update(now): the fixed sequence of
steps 1 through 7 followed by the deferred assignment of lastUpdateTime.
The normalized age t divides by the lifetime in seconds with no guard
against a zero divisor, as in the source. -/
def Particle.update {α : Type} (p : Particle α) (sys : ParticleSystem α)
    (now : ℤ) : Particle α :=
  let delta := now - p.lastUpdateTime
  let t := seconds (now - p.birthTime) / seconds p.lifetime
  let q :=
    applyColor sys t delta
      (applyRotation sys t delta
        (applyScale sys t delta
          (applyMove delta
            (applyVelocity sys t delta
              (applyData sys t delta
                (applyUpdateFunc sys t delta p))))))
  { q with lastUpdateTime := now }

/-- rotationInput sys now p is the accumulated pre-wrap angle that step 6
of Particle.update computes for p, namely the angle after steps 1 through 5
plus the configured angular velocity times delta seconds. -/
def rotationInput {α : Type} (sys : ParticleSystem α) (now : ℤ)
    (p : Particle α) : ℚ :=
  let delta := now - p.lastUpdateTime
  let t := seconds (now - p.birthTime) / seconds p.lifetime
  let q := applyScale sys t delta
            (applyMove delta
              (applyVelocity sys t delta
                (applyData sys t delta
                  (applyUpdateFunc sys t delta p))))
  match sys.RotationOverLifetime with
  | some f => q.angle + f q t delta * seconds delta
  | none => q.angle

/-- removeAt performs one removal of system.go removeDeadParticles: splice
the particle out at index i, put it into the pool, then invoke DeathFunc
(recorded as a ghost DeathEvent) if one is configured. -/
def removeAt {α : Type} (sys : ParticleSystem α) (i : ℕ) (part : Particle α) :
    ParticleSystem α :=
  let rest := sys.particles.take i ++ sys.particles.drop (i + 1)
  let evs :=
    if sys.DeathFunc then
      sys.deaths ++ [⟨part.id, rest.map Particle.id, (part :: sys.pool).map Particle.id⟩]
    else sys.deaths
  { sys with particles := rest, pool := part :: sys.pool, deaths := evs }

/-- removeDeadLoop mirrors the downward index loop of system.go
removeDeadParticles: the argument i is one past the index inspected next,
so removeDeadLoop now (len) runs the loop from index len-1 down to 0. -/
def removeDeadLoop {α : Type} (now : ℤ) : ℕ → ParticleSystem α → ParticleSystem α
  | 0, sys => sys
  | i + 1, sys =>
    match sys.particles.get? i with
    | none => removeDeadLoop now i sys
    | some part =>
      if part.aliveB now then removeDeadLoop now i sys
      else removeDeadLoop now i (removeAt sys i part)

/-- removeDeadParticles mirrors system.go removeDeadParticles(now). -/
def removeDeadParticles {α : Type} (sys : ParticleSystem α) (now : ℤ) :
    ParticleSystem α :=
  removeDeadLoop now sys.particles.length sys

/-- spawnedPart builds the particle appended by system.go spawnParticle
from the particle obtained from the pool: reset, then lifetime (from
LifetimeOverTime or the one second default), birthTime, deathTime and
lastUpdateTime, then the initial position from EmissionPositionOverTime if
set. -/
def spawnedPart {α : Type} (sys : ParticleSystem α) (now : ℤ)
    (part : Particle α) : Particle α :=
  let dur := now - sys.startTime
  let delta := now - sys.lastUpdateTime
  let lt := match sys.LifetimeOverTime with
    | some f => f dur delta
    | none => 1000000000
  let q := { part.reset with lifetime := lt, birthTime := now, deathTime := now + lt, lastUpdateTime := now }
  match sys.EmissionPositionOverTime with
  | some f => { q with x := (f dur delta).1, y := (f dur delta).2 }
  | none => q

/-- spawnParticle mirrors system.go spawnParticle(now): return immediately
when the live count has reached MaxParticles, otherwise take a particle
from the pool (or allocate a fresh one) and append the spawned particle. -/
def spawnParticle {α : Type} (sys : ParticleSystem α) (now : ℤ) :
    ParticleSystem α :=
  if sys.MaxParticles ≤ (sys.particles.length : ℤ) then sys
  else
    match sys.pool with
    | [] =>
      { sys with particles := sys.particles ++ [spawnedPart sys now (newParticle α sys.nextId)],
                 pool := [],
                 nextId := sys.nextId + 1 }
    | p :: rest =>
      { sys with particles := sys.particles ++ [spawnedPart sys now p],
                 pool := rest }

/-- emitLoop is the while loop of system.go spawnParticles: while the
accumulator is at least one, spawn one particle and decrement the
accumulator by one. The fuel passed by spawnParticles is the floor of the
accumulator, which is exactly the number of iterations of the source
loop. -/
def emitLoop {α : Type} : ℕ → ParticleSystem α → ℤ → ParticleSystem α
  | 0, sys, _ => sys
  | fuel + 1, sys, now =>
    if 1 ≤ sys.particlesToEmit then
      let s := spawnParticle sys now
      emitLoop fuel { s with particlesToEmit := s.particlesToEmit - 1 } now
    else sys

/-- emissionContribution sys now is the amount the rate step of system.go
spawnParticles adds to the accumulator: rate(d, delta) times delta seconds
when EmissionRateOverTime is set, zero otherwise. -/
def emissionContribution {α : Type} (sys : ParticleSystem α) (now : ℤ) : ℚ :=
  match sys.EmissionRateOverTime with
  | some rate =>
    rate (sys.Duration now) (now - sys.lastUpdateTime) * seconds (now - sys.lastUpdateTime)
  | none => 0

/-- rateStage is the first half of system.go spawnParticles: add the rate
contribution to the fractional accumulator when a rate function is
configured. -/
def rateStage {α : Type} (sys : ParticleSystem α) (now : ℤ) : ParticleSystem α :=
  match sys.EmissionRateOverTime with
  | some rate =>
    let c := rate (sys.Duration now) (now - sys.lastUpdateTime) * seconds (now - sys.lastUpdateTime)
    { sys with particlesToEmit := sys.particlesToEmit + c }
  | none => sys

/-- spawnParticles mirrors system.go spawnParticles(now): the rate stage
followed by the emission while loop. -/
def spawnParticles {α : Type} (sys : ParticleSystem α) (now : ℤ) :
    ParticleSystem α :=
  let s := rateStage sys now
  emitLoop (⌊s.particlesToEmit⌋.toNat) s now

/-- updateParticles mirrors system.go updateParticles(now): update every
particle in order and report whether any particle is dead afterwards. -/
def updateParticles {α : Type} (sys : ParticleSystem α) (now : ℤ) :
    ParticleSystem α × Bool :=
  let ps := sys.particles.map (fun p => p.update sys now)
  ({ sys with particles := ps }, ps.any (fun p => !(p.aliveB now)))

/-- updateLoop is the convergence loop of system.go Update: reclaim, spawn,
advance, and repeat while the advance pass saw a dead particle. none means
the fuel was exhausted before the loop converged. -/
def updateLoop {α : Type} : ℕ → ParticleSystem α → ℤ → Option (ParticleSystem α)
  | 0, _, _ => none
  | fuel + 1, sys, now =>
    let s1 := removeDeadParticles sys now
    let s2 := spawnParticles s1 now
    let r := updateParticles s2 now
    if r.2 then updateLoop fuel r.1 now else some r.1

/-- ParticleSystem.init mirrors system.go init(now), run once by the lazy
initialization gate. -/
def ParticleSystem.init {α : Type} (sys : ParticleSystem α) (now : ℤ) :
    ParticleSystem α :=
  { sys with startTime := now, lastUpdateTime := now, initialized := true }

/-- ParticleSystem.Update mirrors system.go Update(now): lazy one-time
initialization, the convergence loop, and the deferred assignment of
lastUpdateTime. -/
def ParticleSystem.Update {α : Type} (sys : ParticleSystem α) (now : ℤ)
    (fuel : ℕ) : Option (ParticleSystem α) :=
  let s := if sys.initialized then sys else sys.init now
  (updateLoop fuel s now).map (fun r => { r with lastUpdateTime := now })

/-- ParticleSystem.Spawn mirrors system.go Spawn(num): add num to the
fractional emission accumulator. -/
def ParticleSystem.Spawn {α : Type} (sys : ParticleSystem α) (num : ℤ) :
    ParticleSystem α :=
  { sys with particlesToEmit := sys.particlesToEmit + (num : ℚ) }

/-- applySpawns folds a list of direct spawn requests over the system. -/
def applySpawns {α : Type} (sys : ParticleSystem α) (nums : List ℤ) :
    ParticleSystem α :=
  nums.foldl (fun s n => s.Spawn n) sys

/-- ParticleSystem.ForEachParticle mirrors system.go ForEachParticle: it
returns, in order, the argument triple passed to the visitor for each live
particle: the particle, its normalized age (elapsed seconds divided by
lifetime seconds, with no guard against a zero divisor), and the system
frame delta. -/
def ParticleSystem.ForEachParticle {α : Type} (sys : ParticleSystem α)
    (now : ℤ) : List (Particle α × ℚ × ℤ) :=
  let delta := now - sys.lastUpdateTime
  sys.particles.map (fun p =>
    (p, seconds (now - p.birthTime) / seconds p.lifetime, delta))

/-- ParticleSystem.Reset mirrors system.go Reset(): kill every particle,
reclaim them (invoking DeathFunc for each), then re-arm lazy
initialization, clear the particle list and zero the accumulator. The
wall-clock time passed to the reclaim step is an arbitrary caller-side
timestamp. -/
def ParticleSystem.Reset {α : Type} (sys : ParticleSystem α) (now : ℤ) :
    ParticleSystem α :=
  let killed := { sys with particles := sys.particles.map (fun p => { p with isAlive := false }) }
  let cleaned := removeDeadParticles killed now
  { cleaned with initialized := false, particles := [], particlesToEmit := 0 }

/-- configOf collects the caller-configured fields of a system: the cap and
the ten behavior-function slots. -/
def configOf {α : Type} (sys : ParticleSystem α) :
    ℤ × Option (Option α → ℚ → ℤ → Option α) × Bool ×
    Option (Particle α → ℚ → ℤ → Bool) × Option (ℤ → ℤ → ℚ) ×
    Option (ℤ → ℤ → ℚ × ℚ) × Option (ℤ → ℤ → ℤ) ×
    Option (Particle α → ℚ → ℤ → ℚ × ℚ) × Option (Particle α → ℚ → ℤ → ℚ × ℚ) ×
    Option (Particle α → ℚ → ℤ → GoColor) × Option (Particle α → ℚ → ℤ → ℚ) :=
  (sys.MaxParticles, sys.DataOverLifetime, sys.DeathFunc, sys.UpdateFunc,
   sys.EmissionRateOverTime, sys.EmissionPositionOverTime, sys.LifetimeOverTime,
   sys.VelocityOverLifetime, sys.ScaleOverLifetime, sys.ColorOverLifetime,
   sys.RotationOverLifetime)

/-- Vector mirrors vector.go Vector; the float64 components are modelled as
reals so that Magnitude is the exact square root. -/
structure Vector where
  X : ℝ
  Y : ℝ

/-- ZeroVector mirrors vector.go ZeroVector. -/
def ZeroVector : Vector := ⟨0, 0⟩

/-- OneVector mirrors vector.go OneVector. -/
def OneVector : Vector := ⟨1, 1⟩

/-- Vector.Magnitude mirrors vector.go Magnitude. -/
noncomputable def Vector.Magnitude (v : Vector) : ℝ :=
  Real.sqrt (v.X * v.X + v.Y * v.Y)

open Classical in
/-- Vector.TryNormalize mirrors vector.go TryNormalize: the zero-magnitude
vector is returned unchanged with false, any other vector is scaled by the
reciprocal of its magnitude and returned with true. -/
noncomputable def Vector.TryNormalize (v : Vector) : Vector × Bool :=
  if v.Magnitude = 0 then (v, false)
  else (⟨v.X / v.Magnitude, v.Y / v.Magnitude⟩, true)

/-- Vector.Normalize mirrors vector.go Normalize; none models the panic on
a zero-magnitude vector. -/
noncomputable def Vector.Normalize (v : Vector) : Option Vector :=
  if (v.TryNormalize).2 then some (v.TryNormalize).1 else none

/-- Vector.Add mirrors vector.go Add. -/
noncomputable def Vector.Add (v v2 : Vector) : Vector :=
  ⟨v.X + v2.X, v.Y + v2.Y⟩

/-- Vector.Multiply mirrors vector.go Multiply. -/
noncomputable def Vector.Multiply (v : Vector) (d : ℝ) : Vector :=
  ⟨v.X * d, v.Y * d⟩

/-- SysWF is the ghost-identity well-formedness invariant: the ids of live
and pooled particles are pairwise distinct (distinct pointers) and below
the allocation counter. It holds for NewSystem and is preserved by every
operation. -/
abbrev SysWF {α : Type} (sys : ParticleSystem α) : Prop :=
  ((sys.particles ++ sys.pool).map Particle.id).Nodup ∧
  ∀ p ∈ sys.particles ++ sys.pool, p.id < sys.nextId

/-- goodEvent states that a DeathFunc invocation happened only after the
particle was removed from the live set and put into the pool: its id is
absent from the recorded live set and present in the recorded pool. -/
abbrev goodEvent (ev : DeathEvent) : Prop :=
  ev.pid ∉ ev.liveIds ∧ ev.pid ∈ ev.poolIds

/-- pDead is a concrete dead particle used in concrete runs. -/
def pDead : Particle Unit := { newParticle Unit 0 with isAlive := false }

/-- pAlive is a concrete particle that is alive until time 10. -/
def pAlive : Particle Unit := { newParticle Unit 1 with isAlive := true, deathTime := 10 }

/-- sysC1w is a concrete system holding one dead and one alive particle. -/
def sysC1w : ParticleSystem Unit :=
  { NewSystem Unit with MaxParticles := 2, DeathFunc := true,
                        particles := [pDead, pAlive], nextId := 2 }

/-- sysC2w is a concrete system with spare capacity. -/
def sysC2w : ParticleSystem Unit := { NewSystem Unit with MaxParticles := 1 }

/-- sysC2x is a concrete system whose particles rotate at one radian per
second and live one second. -/
def sysC2x : ParticleSystem Unit :=
  { NewSystem Unit with MaxParticles := 1,
                        LifetimeOverTime := some (fun _ _ => 1000000000),
                        RotationOverLifetime := some (fun _ _ _ => 1) }

/-- runC2 spawns a particle of sysC2x, lets it rotate for half a second,
lets it die, and then spawns a recycled particle from the pool. -/
def runC2 : Option (ParticleSystem Unit) :=
  ((((sysC2x.Spawn 1).Update 0 2).bind (fun s => s.Update 500000000 2)).bind
    (fun s => s.Update 2000000000 2)).bind
    (fun s => (s.Spawn 1).Update 3000000000 2)

/-- sysC3x is a concrete system whose particles rotate at twenty radians
per second. -/
def sysC3x : ParticleSystem Unit :=
  { NewSystem Unit with MaxParticles := 1,
                        LifetimeOverTime := some (fun _ _ => 10000000000),
                        RotationOverLifetime := some (fun _ _ _ => 20) }

/-- runC3 spawns a particle of sysC3x and advances one second. -/
def runC3 : Option (ParticleSystem Unit) :=
  ((sysC3x.Spawn 1).Update 0 2).bind (fun s => s.Update 1000000000 2)

/-- sysC3w is a concrete system rotating at seven radians per second. -/
def sysC3w : ParticleSystem Unit :=
  { NewSystem Unit with RotationOverLifetime := some (fun _ _ _ => 7) }

/-- pw3 is a concrete particle born at time zero with a one second
lifetime. -/
def pw3 : Particle Unit :=
  { newParticle Unit 0 with isAlive := true, lifetime := 1000000000, deathTime := 1000000000 }

/-- sysC4x is a concrete system with a constant emission rate of five
particles per second and a zero particle cap. -/
def sysC4x : ParticleSystem Unit :=
  { NewSystem Unit with EmissionRateOverTime := some (fun _ _ => 5) }

/-- runC4 updates sysC4x at time zero and then at time minus one second,
so the second call runs with a negative frame delta. -/
def runC4 : Option (ParticleSystem Unit) :=
  (sysC4x.Update 0 2).bind (fun s => s.Update (-1000000000) 2)

/-- sysC4w is a concrete system with an emission rate function and a last
update time of seven nanoseconds. -/
def sysC4w : ParticleSystem Unit :=
  { NewSystem Unit with EmissionRateOverTime := some (fun _ _ => 5), lastUpdateTime := 7 }

/-- sysC6w is a concrete fresh system with a cap of two. -/
def sysC6w : ParticleSystem Unit := { NewSystem Unit with MaxParticles := 2 }

/-- sysC7w is a concrete system with a death callback, one dead particle
and one alive particle. -/
def sysC7w : ParticleSystem Unit :=
  { NewSystem Unit with DeathFunc := true, particles := [pDead, pAlive], nextId := 2 }

/-- sysC9w is a concrete system with a death callback and one alive
particle. -/
def sysC9w : ParticleSystem Unit :=
  { NewSystem Unit with DeathFunc := true, particles := [pAlive], nextId := 2 }

/-- resC1w is the state of sysC1w after one Update at time 5: the dead
particle removed, pooled and notified; the alive particle advanced. -/
def resC1w : ParticleSystem Unit :=
  { sysC1w with particles := [{ pAlive with lastUpdateTime := 5 }], pool := [pDead],
                deaths := [⟨0, [1], [0]⟩], startTime := 5, lastUpdateTime := 5,
                initialized := true }

/-- resC10w is the state of a fresh system after one Update at time 0. -/
def resC10w : ParticleSystem Unit := { NewSystem Unit with initialized := true }

/-! Lemmas: basic facts about particles and the per-particle update. -/

theorem aliveB_iff {α : Type} (p : Particle α) (now : ℤ) :
    p.aliveB now = true ↔ (p.isAlive = true ∧ now < p.deathTime) := by
  simp [Particle.aliveB]

theorem seconds_eq_zero_iff (d : ℤ) : seconds d = 0 ↔ d = 0 := by
  simp [seconds, div_eq_zero_iff]

@[simp] theorem update_id {α : Type} (p : Particle α) (sys : ParticleSystem α) (now : ℤ) :
    (p.update sys now).id = p.id := by
  simp only [Particle.update, applyColor, applyRotation, applyScale, applyMove,
    applyVelocity, applyData, applyUpdateFunc]
  repeat' split
  all_goals rfl

@[simp] theorem update_lifetime {α : Type} (p : Particle α) (sys : ParticleSystem α) (now : ℤ) :
    (p.update sys now).lifetime = p.lifetime := by
  simp only [Particle.update, applyColor, applyRotation, applyScale, applyMove,
    applyVelocity, applyData, applyUpdateFunc]
  repeat' split
  all_goals rfl

@[simp] theorem update_deathTime {α : Type} (p : Particle α) (sys : ParticleSystem α) (now : ℤ) :
    (p.update sys now).deathTime = p.deathTime := by
  simp only [Particle.update, applyColor, applyRotation, applyScale, applyMove,
    applyVelocity, applyData, applyUpdateFunc]
  repeat' split
  all_goals rfl

theorem update_isAlive_of_updateFuncNone {α : Type} (p : Particle α)
    (sys : ParticleSystem α) (now : ℤ) (h : sys.UpdateFunc = none) :
    (p.update sys now).isAlive = p.isAlive := by
  simp only [Particle.update, applyColor, applyRotation, applyScale, applyMove,
    applyVelocity, applyData, applyUpdateFunc, h]
  repeat' split
  all_goals rfl

/-! Lemmas: frame facts, stating which fields each operation leaves
unchanged. -/

theorem frame_removeAt {α : Type} (sys : ParticleSystem α) (i : ℕ) (part : Particle α) :
    configOf (removeAt sys i part) = configOf sys ∧
    (removeAt sys i part).startTime = sys.startTime ∧
    (removeAt sys i part).lastUpdateTime = sys.lastUpdateTime ∧
    (removeAt sys i part).initialized = sys.initialized ∧
    (removeAt sys i part).particlesToEmit = sys.particlesToEmit ∧
    (removeAt sys i part).nextId = sys.nextId :=
  ⟨rfl, rfl, rfl, rfl, rfl, rfl⟩

theorem frame_removeDeadLoop {α : Type} (now : ℤ) (i : ℕ) (sys : ParticleSystem α) :
    configOf (removeDeadLoop now i sys) = configOf sys ∧
    (removeDeadLoop now i sys).startTime = sys.startTime ∧
    (removeDeadLoop now i sys).lastUpdateTime = sys.lastUpdateTime ∧
    (removeDeadLoop now i sys).initialized = sys.initialized ∧
    (removeDeadLoop now i sys).particlesToEmit = sys.particlesToEmit ∧
    (removeDeadLoop now i sys).nextId = sys.nextId := by
  induction i generalizing sys with
  | zero => exact ⟨rfl, rfl, rfl, rfl, rfl, rfl⟩
  | succ n ih =>
    simp only [removeDeadLoop]
    cases h : sys.particles.get? n with
    | none => exact ih sys
    | some part =>
      by_cases ha : part.aliveB now = true
      · simp only [ha, if_true]
        exact ih sys
      · simp only [Bool.not_eq_true] at ha
        simp only [ha, Bool.false_eq_true, if_false]
        exact ih (removeAt sys n part)

theorem frame_spawnParticle {α : Type} (sys : ParticleSystem α) (now : ℤ) :
    configOf (spawnParticle sys now) = configOf sys ∧
    (spawnParticle sys now).startTime = sys.startTime ∧
    (spawnParticle sys now).lastUpdateTime = sys.lastUpdateTime ∧
    (spawnParticle sys now).initialized = sys.initialized ∧
    (spawnParticle sys now).particlesToEmit = sys.particlesToEmit ∧
    (spawnParticle sys now).deaths = sys.deaths := by
  unfold spawnParticle
  split
  · exact ⟨rfl, rfl, rfl, rfl, rfl, rfl⟩
  · split <;> exact ⟨rfl, rfl, rfl, rfl, rfl, rfl⟩

theorem frame_emitLoop {α : Type} (fuel : ℕ) (sys : ParticleSystem α) (now : ℤ) :
    configOf (emitLoop fuel sys now) = configOf sys ∧
    (emitLoop fuel sys now).startTime = sys.startTime ∧
    (emitLoop fuel sys now).lastUpdateTime = sys.lastUpdateTime ∧
    (emitLoop fuel sys now).initialized = sys.initialized ∧
    (emitLoop fuel sys now).deaths = sys.deaths := by
  induction fuel generalizing sys with
  | zero => exact ⟨rfl, rfl, rfl, rfl, rfl⟩
  | succ n ih =>
    simp only [emitLoop]
    split
    · have h1 := frame_spawnParticle sys now
      have h2 := ih { spawnParticle sys now with
        particlesToEmit := (spawnParticle sys now).particlesToEmit - 1 }
      exact ⟨h2.1.trans h1.1, h2.2.1.trans h1.2.1, h2.2.2.1.trans h1.2.2.1,
             h2.2.2.2.1.trans h1.2.2.2.1, h2.2.2.2.2.trans h1.2.2.2.2.2⟩
    · exact ⟨rfl, rfl, rfl, rfl, rfl⟩

theorem frame_rateStage {α : Type} (sys : ParticleSystem α) (now : ℤ) :
    configOf (rateStage sys now) = configOf sys ∧
    (rateStage sys now).startTime = sys.startTime ∧
    (rateStage sys now).lastUpdateTime = sys.lastUpdateTime ∧
    (rateStage sys now).initialized = sys.initialized ∧
    (rateStage sys now).deaths = sys.deaths ∧
    (rateStage sys now).particles = sys.particles ∧
    (rateStage sys now).pool = sys.pool ∧
    (rateStage sys now).nextId = sys.nextId := by
  unfold rateStage
  split <;> exact ⟨rfl, rfl, rfl, rfl, rfl, rfl, rfl, rfl⟩

theorem frame_spawnParticles {α : Type} (sys : ParticleSystem α) (now : ℤ) :
    configOf (spawnParticles sys now) = configOf sys ∧
    (spawnParticles sys now).startTime = sys.startTime ∧
    (spawnParticles sys now).lastUpdateTime = sys.lastUpdateTime ∧
    (spawnParticles sys now).initialized = sys.initialized ∧
    (spawnParticles sys now).deaths = sys.deaths := by
  unfold spawnParticles
  have h1 := frame_rateStage sys now
  have h2 := frame_emitLoop (⌊(rateStage sys now).particlesToEmit⌋.toNat) (rateStage sys now) now
  exact ⟨h2.1.trans h1.1, h2.2.1.trans h1.2.1, h2.2.2.1.trans h1.2.2.1,
         h2.2.2.2.1.trans h1.2.2.2.1, h2.2.2.2.2.trans h1.2.2.2.2.1⟩

theorem frame_updateParticles {α : Type} (sys : ParticleSystem α) (now : ℤ) :
    configOf (updateParticles sys now).1 = configOf sys ∧
    (updateParticles sys now).1.startTime = sys.startTime ∧
    (updateParticles sys now).1.lastUpdateTime = sys.lastUpdateTime ∧
    (updateParticles sys now).1.initialized = sys.initialized ∧
    (updateParticles sys now).1.particlesToEmit = sys.particlesToEmit ∧
    (updateParticles sys now).1.pool = sys.pool ∧
    (updateParticles sys now).1.nextId = sys.nextId ∧
    (updateParticles sys now).1.deaths = sys.deaths :=
  ⟨rfl, rfl, rfl, rfl, rfl, rfl, rfl, rfl⟩

theorem rateStage_particlesToEmit {α : Type} (sys : ParticleSystem α) (now : ℤ) :
    (rateStage sys now).particlesToEmit = sys.particlesToEmit + emissionContribution sys now := by
  cases h : sys.EmissionRateOverTime <;> simp [rateStage, emissionContribution, h]

/-! Lemmas: the spawn step. -/

theorem spawnParticle_blocked {α : Type} (sys : ParticleSystem α) (now : ℤ)
    (h : sys.MaxParticles ≤ (sys.particles.length : ℤ)) :
    spawnParticle sys now = sys := by
  unfold spawnParticle
  rw [if_pos h]

theorem spawnParticle_cases {α : Type} (sys : ParticleSystem α) (now : ℤ) :
    (sys.MaxParticles ≤ (sys.particles.length : ℤ) ∧ spawnParticle sys now = sys) ∨
    (¬ sys.MaxParticles ≤ (sys.particles.length : ℤ) ∧
      ((sys.pool = [] ∧ spawnParticle sys now =
          { sys with particles := sys.particles ++ [spawnedPart sys now (newParticle α sys.nextId)],
                     pool := [], nextId := sys.nextId + 1 }) ∨
       (∃ p rest, sys.pool = p :: rest ∧ spawnParticle sys now =
          { sys with particles := sys.particles ++ [spawnedPart sys now p],
                     pool := rest }))) := by
  by_cases h : sys.MaxParticles ≤ (sys.particles.length : ℤ)
  · exact Or.inl ⟨h, spawnParticle_blocked sys now h⟩
  · refine Or.inr ⟨h, ?_⟩
    cases hp : sys.pool with
    | nil =>
      refine Or.inl ⟨rfl, ?_⟩
      unfold spawnParticle
      rw [if_neg h, hp]
    | cons p rest =>
      refine Or.inr ⟨p, rest, rfl, ?_⟩
      unfold spawnParticle
      rw [if_neg h, hp]

theorem spawnParticle_length {α : Type} (sys : ParticleSystem α) (now : ℤ) :
    ((spawnParticle sys now).particles.length : ℤ) =
      if sys.MaxParticles ≤ (sys.particles.length : ℤ) then (sys.particles.length : ℤ)
      else (sys.particles.length : ℤ) + 1 := by
  rcases spawnParticle_cases sys now with ⟨h, heq⟩ | ⟨h, hcase⟩
  · rw [heq, if_pos h]
  · rw [if_neg h]
    rcases hcase with ⟨-, heq⟩ | ⟨p, rest, -, heq⟩ <;>
      simp [heq, List.length_append]

theorem spawnParticle_mem {α : Type} (sys : ParticleSystem α) (now : ℤ) :
    ∀ q ∈ (spawnParticle sys now).particles,
      q ∈ sys.particles ∨ ∃ base, q = spawnedPart sys now base := by
  rcases spawnParticle_cases sys now with ⟨-, heq⟩ | ⟨-, hcase⟩
  · rw [heq]
    exact fun q hq => Or.inl hq
  · rcases hcase with ⟨-, heq⟩ | ⟨p, rest, -, heq⟩ <;>
      · rw [heq]
        intro q hq
        simp only [List.mem_append, List.mem_singleton] at hq
        rcases hq with hq | hq
        · exact Or.inl hq
        · exact Or.inr ⟨_, hq⟩

theorem emitLoop_spec {α : Type} (fuel : ℕ) (sys : ParticleSystem α) (now : ℤ)
    (h : (fuel : ℤ) ≤ ⌊sys.particlesToEmit⌋) :
    (emitLoop fuel sys now).particlesToEmit = sys.particlesToEmit - fuel ∧
    ((emitLoop fuel sys now).particles.length : ℤ) =
      min ((sys.particles.length : ℤ) + fuel)
          (max sys.MaxParticles (sys.particles.length : ℤ)) := by
  induction fuel generalizing sys with
  | zero =>
    refine ⟨by simp [emitLoop], ?_⟩
    simp only [emitLoop, Nat.cast_zero, add_zero]
    omega
  | succ n ih =>
    have h1 : (1 : ℚ) ≤ sys.particlesToEmit := by
      have h2 : (1 : ℤ) ≤ ⌊sys.particlesToEmit⌋ := by
        have : (0 : ℤ) ≤ (n : ℤ) := Int.ofNat_nonneg n
        push_cast at h
        omega
      exact_mod_cast Int.le_floor.mp h2
    simp only [emitLoop, if_pos h1]
    have hfr := frame_spawnParticle sys now
    have hpte : (spawnParticle sys now).particlesToEmit = sys.particlesToEmit :=
      hfr.2.2.2.2.1
    have hM : (spawnParticle sys now).MaxParticles = sys.MaxParticles := by
      have := hfr.1
      unfold configOf at this
      exact congrArg Prod.fst this
    have hlen := spawnParticle_length sys now
    have hfl : ((n : ℕ) : ℤ) ≤ ⌊(spawnParticle sys now).particlesToEmit - 1⌋ := by
      rw [hpte]
      rw [show (sys.particlesToEmit - 1 : ℚ) = sys.particlesToEmit - ((1 : ℤ) : ℚ) by push_cast; ring]
      rw [Int.floor_sub_int]
      push_cast at h ⊢
      omega
    have hih := ih { spawnParticle sys now with
      particlesToEmit := (spawnParticle sys now).particlesToEmit - 1 } hfl
    refine ⟨?_, ?_⟩
    · rw [hih.1, hpte]
      push_cast
      ring
    · rw [hih.2]
      by_cases hc : sys.MaxParticles ≤ (sys.particles.length : ℤ)
      · rw [if_pos hc] at hlen
        rw [hlen, hM]
        push_cast
        omega
      · rw [if_neg hc] at hlen
        rw [hlen, hM]
        push_cast
        omega

/-! Lemmas: the reclaim step. -/

theorem removeDeadLoop_particles {α : Type} (now : ℤ) (i : ℕ) (sys : ParticleSystem α)
    (h : i ≤ sys.particles.length) :
    (removeDeadLoop now i sys).particles =
      (sys.particles.take i).filter (fun p => p.aliveB now) ++ sys.particles.drop i := by
  induction i generalizing sys with
  | zero => simp [removeDeadLoop]
  | succ n ih =>
    have hn : n < sys.particles.length := Nat.lt_of_succ_le h
    set part := sys.particles[n] with hpdef
    have hpart : sys.particles.get? n = some part := by
      rw [List.get?_eq_getElem?, List.getElem?_eq_getElem hn]
    have hdecomp : sys.particles.drop n = part :: sys.particles.drop (n + 1) :=
      List.drop_eq_getElem_cons hn
    have htake : sys.particles.take (n + 1) = sys.particles.take n ++ [part] := by
      rw [List.take_succ, List.getElem?_eq_getElem hn]
      rfl
    simp only [removeDeadLoop, hpart]
    by_cases ha : part.aliveB now = true
    · rw [if_pos ha, ih sys (Nat.le_of_lt hn), htake, hdecomp]
      simp [List.filter_append, ha]
    · rw [if_neg (by simp [ha]), htake]
      have hlenr : n ≤ (removeAt sys n part).particles.length := by
        have : (removeAt sys n part).particles = sys.particles.take n ++ sys.particles.drop (n + 1) := rfl
        rw [this]
        simp [List.length_take]
        omega
      rw [ih (removeAt sys n part) hlenr]
      have hrp : (removeAt sys n part).particles = sys.particles.take n ++ sys.particles.drop (n + 1) := rfl
      have hlt : (sys.particles.take n).length = n := by
        simp [List.length_take]
        omega
      have h1 : (removeAt sys n part).particles.take n = sys.particles.take n := by
        rw [hrp, List.take_append_eq_append_take, hlt]
        simp [List.take_take]
      have h2 : (removeAt sys n part).particles.drop n = sys.particles.drop (n + 1) := by
        rw [hrp, List.drop_append_eq_append_drop, hlt]
        simp [List.drop_eq_nil_of_le (show (sys.particles.take n).length ≤ n from le_of_eq hlt)]
      rw [h1, h2]
      simp [List.filter_append, ha]

theorem removeDeadLoop_pool {α : Type} (now : ℤ) (i : ℕ) (sys : ParticleSystem α)
    (h : i ≤ sys.particles.length) :
    (removeDeadLoop now i sys).pool =
      ((sys.particles.take i).filter (fun p => !(p.aliveB now))) ++ sys.pool := by
  induction i generalizing sys with
  | zero => simp [removeDeadLoop]
  | succ n ih =>
    have hn : n < sys.particles.length := Nat.lt_of_succ_le h
    set part := sys.particles[n] with hpdef
    have hpart : sys.particles.get? n = some part := by
      rw [List.get?_eq_getElem?, List.getElem?_eq_getElem hn]
    have htake : sys.particles.take (n + 1) = sys.particles.take n ++ [part] := by
      rw [List.take_succ, List.getElem?_eq_getElem hn]
      rfl
    simp only [removeDeadLoop, hpart]
    by_cases ha : part.aliveB now = true
    · rw [if_pos ha, ih sys (Nat.le_of_lt hn), htake]
      simp [List.filter_append, ha]
    · rw [if_neg (by simp [ha])]
      have hlenr : n ≤ (removeAt sys n part).particles.length := by
        have hrp : (removeAt sys n part).particles = sys.particles.take n ++ sys.particles.drop (n + 1) := rfl
        rw [hrp]
        simp [List.length_take]
        omega
      rw [ih (removeAt sys n part) hlenr]
      have hlt : (sys.particles.take n).length = n := by
        simp [List.length_take]
        omega
      have h1 : (removeAt sys n part).particles.take n = sys.particles.take n := by
        have hrp : (removeAt sys n part).particles = sys.particles.take n ++ sys.particles.drop (n + 1) := rfl
        rw [hrp, List.take_append_eq_append_take, hlt]
        simp [List.take_take]
      have hpool : (removeAt sys n part).pool = part :: sys.pool := rfl
      rw [h1, hpool, htake]
      simp [List.filter_append, ha]

theorem removeDeadLoop_deathsMap {α : Type} (now : ℤ) (i : ℕ) (sys : ParticleSystem α)
    (h : i ≤ sys.particles.length) (hdf : sys.DeathFunc = true) :
    (removeDeadLoop now i sys).deaths.map DeathEvent.pid =
      sys.deaths.map DeathEvent.pid ++
        (((sys.particles.take i).filter (fun p => !(p.aliveB now))).reverse).map Particle.id := by
  induction i generalizing sys with
  | zero => simp [removeDeadLoop]
  | succ n ih =>
    have hn : n < sys.particles.length := Nat.lt_of_succ_le h
    set part := sys.particles[n] with hpdef
    have hpart : sys.particles.get? n = some part := by
      rw [List.get?_eq_getElem?, List.getElem?_eq_getElem hn]
    have htake : sys.particles.take (n + 1) = sys.particles.take n ++ [part] := by
      rw [List.take_succ, List.getElem?_eq_getElem hn]
      rfl
    simp only [removeDeadLoop, hpart]
    by_cases ha : part.aliveB now = true
    · rw [if_pos ha, ih sys (Nat.le_of_lt hn) hdf, htake]
      simp [List.filter_append, ha]
    · rw [if_neg (by simp [ha])]
      have hlenr : n ≤ (removeAt sys n part).particles.length := by
        have hrp : (removeAt sys n part).particles = sys.particles.take n ++ sys.particles.drop (n + 1) := rfl
        rw [hrp]
        simp [List.length_take]
        omega
      have hdf2 : (removeAt sys n part).DeathFunc = true := hdf
      rw [ih (removeAt sys n part) hlenr hdf2]
      have hlt : (sys.particles.take n).length = n := by
        simp [List.length_take]
        omega
      have h1 : (removeAt sys n part).particles.take n = sys.particles.take n := by
        have hrp : (removeAt sys n part).particles = sys.particles.take n ++ sys.particles.drop (n + 1) := rfl
        rw [hrp, List.take_append_eq_append_take, hlt]
        simp [List.take_take]
      have hdm : (removeAt sys n part).deaths.map DeathEvent.pid =
          sys.deaths.map DeathEvent.pid ++ [part.id] := by
        simp [removeAt, hdf]
      rw [h1, hdm, htake]
      simp [List.filter_append, ha]

theorem removeDeadLoop_goodEvents {α : Type} (now : ℤ) (i : ℕ) (sys : ParticleSystem α)
    (h : i ≤ sys.particles.length) (hnd : (sys.particles.map Particle.id).Nodup) :
    ∀ ev ∈ (removeDeadLoop now i sys).deaths, ev ∈ sys.deaths ∨ goodEvent ev := by
  induction i generalizing sys with
  | zero =>
    simp only [removeDeadLoop]
    exact fun ev hev => Or.inl hev
  | succ n ih =>
    have hn : n < sys.particles.length := Nat.lt_of_succ_le h
    set part := sys.particles[n] with hpdef
    have hpart : sys.particles.get? n = some part := by
      rw [List.get?_eq_getElem?, List.getElem?_eq_getElem hn]
    simp only [removeDeadLoop, hpart]
    by_cases ha : part.aliveB now = true
    · rw [if_pos ha]
      exact ih sys (Nat.le_of_lt hn) hnd
    · rw [if_neg (by simp [ha])]
      have hdecomp : sys.particles.drop n = part :: sys.particles.drop (n + 1) :=
        List.drop_eq_getElem_cons hn
      have hfull : sys.particles.take n ++ part :: sys.particles.drop (n + 1) = sys.particles := by
        rw [← hdecomp, List.take_append_drop]
      have hnd2 := hnd
      rw [← hfull] at hnd2
      simp only [List.map_append, List.map_cons, List.nodup_append, List.nodup_cons] at hnd2
      obtain ⟨hnd_t, ⟨hpd_d, hnd_d⟩, hdisj⟩ := hnd2
      have hpd_t : part.id ∉ (sys.particles.take n).map Particle.id := fun hmem =>
        (hdisj hmem) (List.mem_cons_self _ _)
      have hdisj2 : ((sys.particles.take n).map Particle.id).Disjoint
          ((sys.particles.drop (n + 1)).map Particle.id) := fun a haa hb =>
        hdisj haa (List.mem_cons_of_mem _ hb)
      have hrp : (removeAt sys n part).particles = sys.particles.take n ++ sys.particles.drop (n + 1) := rfl
      have hndRA : ((removeAt sys n part).particles.map Particle.id).Nodup := by
        rw [hrp]
        simp only [List.map_append, List.nodup_append]
        exact ⟨hnd_t, hnd_d, hdisj2⟩
      have hlenr : n ≤ (removeAt sys n part).particles.length := by
        rw [hrp]
        simp [List.length_take]
        omega
      have hgood1 : part.id ∉ (removeAt sys n part).particles.map Particle.id := by
        rw [hrp]
        simp only [List.map_append, List.mem_append]
        rintro (hc | hc)
        · exact hpd_t hc
        · exact hpd_d hc
      have hgood2 : part.id ∈ (part :: sys.pool).map Particle.id := by simp
      intro ev hev
      rcases ih (removeAt sys n part) hlenr hndRA ev hev with hin | hg
      · by_cases hdf : sys.DeathFunc = true
        · have hde : (removeAt sys n part).deaths =
              sys.deaths ++ [⟨part.id, (removeAt sys n part).particles.map Particle.id,
                              (part :: sys.pool).map Particle.id⟩] := by
            simp [removeAt, hdf]
          rw [hde] at hin
          rcases List.mem_append.mp hin with hin2 | hin2
          · exact Or.inl hin2
          · rw [List.mem_singleton] at hin2
            subst hin2
            exact Or.inr ⟨hgood1, hgood2⟩
        · have hde : (removeAt sys n part).deaths = sys.deaths := by
            simp [removeAt, hdf]
          rw [hde] at hin
          exact Or.inl hin
      · exact Or.inr hg

theorem removeDeadParticles_particles {α : Type} (sys : ParticleSystem α) (now : ℤ) :
    (removeDeadParticles sys now).particles = sys.particles.filter (fun p => p.aliveB now) := by
  unfold removeDeadParticles
  rw [removeDeadLoop_particles now sys.particles.length sys le_rfl]
  simp

theorem removeDeadParticles_pool {α : Type} (sys : ParticleSystem α) (now : ℤ) :
    (removeDeadParticles sys now).pool =
      (sys.particles.filter (fun p => !(p.aliveB now))) ++ sys.pool := by
  unfold removeDeadParticles
  rw [removeDeadLoop_pool now sys.particles.length sys le_rfl]
  simp

theorem removeDeadParticles_deathsMap {α : Type} (sys : ParticleSystem α) (now : ℤ)
    (hdf : sys.DeathFunc = true) :
    (removeDeadParticles sys now).deaths.map DeathEvent.pid =
      sys.deaths.map DeathEvent.pid ++
        ((sys.particles.filter (fun p => !(p.aliveB now))).reverse).map Particle.id := by
  unfold removeDeadParticles
  rw [removeDeadLoop_deathsMap now sys.particles.length sys le_rfl hdf]
  simp

theorem removeDeadParticles_goodEvents {α : Type} (sys : ParticleSystem α) (now : ℤ)
    (hnd : (sys.particles.map Particle.id).Nodup) :
    ∀ ev ∈ (removeDeadParticles sys now).deaths, ev ∈ sys.deaths ∨ goodEvent ev :=
  removeDeadLoop_goodEvents now sys.particles.length sys le_rfl hnd

/-! Lemmas: projections of configOf, fields of spawned particles, and
preservation of the ghost-identity invariant. -/

theorem configOf_MaxParticles {α : Type} {s1 s2 : ParticleSystem α}
    (h : configOf s1 = configOf s2) : s1.MaxParticles = s2.MaxParticles := by
  unfold configOf at h
  exact congrArg Prod.fst h

theorem configOf_DeathFunc {α : Type} {s1 s2 : ParticleSystem α}
    (h : configOf s1 = configOf s2) : s1.DeathFunc = s2.DeathFunc := by
  unfold configOf at h
  exact congrArg (fun c => c.2.2.1) h

theorem configOf_UpdateFunc {α : Type} {s1 s2 : ParticleSystem α}
    (h : configOf s1 = configOf s2) : s1.UpdateFunc = s2.UpdateFunc := by
  unfold configOf at h
  exact congrArg (fun c => c.2.2.2.1) h

theorem configOf_EmissionRateOverTime {α : Type} {s1 s2 : ParticleSystem α}
    (h : configOf s1 = configOf s2) : s1.EmissionRateOverTime = s2.EmissionRateOverTime := by
  unfold configOf at h
  exact congrArg (fun c => c.2.2.2.2.1) h

theorem configOf_EmissionPositionOverTime {α : Type} {s1 s2 : ParticleSystem α}
    (h : configOf s1 = configOf s2) : s1.EmissionPositionOverTime = s2.EmissionPositionOverTime := by
  unfold configOf at h
  exact congrArg (fun c => c.2.2.2.2.2.1) h

theorem configOf_LifetimeOverTime {α : Type} {s1 s2 : ParticleSystem α}
    (h : configOf s1 = configOf s2) : s1.LifetimeOverTime = s2.LifetimeOverTime := by
  unfold configOf at h
  exact congrArg (fun c => c.2.2.2.2.2.2.1) h

theorem spawnedPart_fields {α : Type} (sys : ParticleSystem α) (now : ℤ) (base : Particle α) :
    (spawnedPart sys now base).id = base.id ∧
    (spawnedPart sys now base).isAlive = true ∧
    (spawnedPart sys now base).data = none ∧
    (spawnedPart sys now base).xVelocity = 0 ∧
    (spawnedPart sys now base).yVelocity = 0 ∧
    (spawnedPart sys now base).xScale = 1 ∧
    (spawnedPart sys now base).yScale = 1 ∧
    (spawnedPart sys now base).color = GoColor.white ∧
    (spawnedPart sys now base).angle = base.angle ∧
    (spawnedPart sys now base).birthTime = now ∧
    (spawnedPart sys now base).lastUpdateTime = now := by
  unfold spawnedPart
  split <;> split <;> exact ⟨rfl, rfl, rfl, rfl, rfl, rfl, rfl, rfl, rfl, rfl, rfl⟩

theorem spawnedPart_lifetime_none {α : Type} (sys : ParticleSystem α) (now : ℤ)
    (base : Particle α) (h : sys.LifetimeOverTime = none) :
    (spawnedPart sys now base).lifetime = 1000000000 ∧
    (spawnedPart sys now base).deathTime = now + 1000000000 := by
  simp only [spawnedPart, h]
  split <;> exact ⟨rfl, rfl⟩

theorem spawnedPart_lifetime_some {α : Type} (sys : ParticleSystem α) (now : ℤ)
    (base : Particle α) (f : ℤ → ℤ → ℤ) (h : sys.LifetimeOverTime = some f) :
    (spawnedPart sys now base).lifetime = f (now - sys.startTime) (now - sys.lastUpdateTime) := by
  simp only [spawnedPart, h]
  split <;> rfl

theorem spawnedPart_position_none {α : Type} (sys : ParticleSystem α) (now : ℤ)
    (base : Particle α) (h : sys.EmissionPositionOverTime = none) :
    (spawnedPart sys now base).x = 0 ∧ (spawnedPart sys now base).y = 0 := by
  simp only [spawnedPart, h]
  exact ⟨rfl, rfl⟩

theorem spawnedPart_congr {α : Type} (s1 s2 : ParticleSystem α) (now : ℤ) (base : Particle α)
    (hc : configOf s1 = configOf s2) (hst : s1.startTime = s2.startTime)
    (hlu : s1.lastUpdateTime = s2.lastUpdateTime) :
    spawnedPart s1 now base = spawnedPart s2 now base := by
  have hl := configOf_LifetimeOverTime hc
  have hp := configOf_EmissionPositionOverTime hc
  unfold spawnedPart
  rw [hl, hp, hst, hlu]

theorem WF_removeDeadParticles {α : Type} (sys : ParticleSystem α) (now : ℤ)
    (hwf : SysWF sys) : SysWF (removeDeadParticles sys now) := by
  obtain ⟨hnd, hbound⟩ := hwf
  have hperm : ((removeDeadParticles sys now).particles ++ (removeDeadParticles sys now).pool).Perm
      (sys.particles ++ sys.pool) := by
    rw [removeDeadParticles_particles, removeDeadParticles_pool, ← List.append_assoc]
    exact (List.filter_append_perm _ _).append_right _
  have hnext : (removeDeadParticles sys now).nextId = sys.nextId :=
    (frame_removeDeadLoop now sys.particles.length sys).2.2.2.2.2
  constructor
  · exact ((hperm.map Particle.id).nodup_iff).mpr hnd
  · intro q hq
    rw [hnext]
    exact hbound q (hperm.mem_iff.mp hq)

theorem WF_spawnParticle {α : Type} (sys : ParticleSystem α) (now : ℤ)
    (hwf : SysWF sys) : SysWF (spawnParticle sys now) := by
  rcases spawnParticle_cases sys now with ⟨-, heq⟩ | ⟨-, ⟨hpool, heq⟩ | ⟨p, rest, hpool, heq⟩⟩
  · rw [heq]
    exact hwf
  · obtain ⟨hnd, hbound⟩ := hwf
    rw [hpool] at hnd hbound
    rw [heq]
    have hid : (spawnedPart sys now (newParticle α sys.nextId)).id = sys.nextId :=
      (spawnedPart_fields sys now (newParticle α sys.nextId)).1
    constructor
    · show (((sys.particles ++ [spawnedPart sys now (newParticle α sys.nextId)]) ++ []).map Particle.id).Nodup
      simp only [List.append_nil, List.map_append, List.map_cons, List.map_nil, hid]
      rw [List.nodup_append]
      refine ⟨by simpa using hnd, List.nodup_singleton _, ?_⟩
      intro a haa hb
      rw [List.mem_singleton] at hb
      subst hb
      obtain ⟨q, hq, hqid⟩ := List.mem_map.mp haa
      have := hbound q (by simp [hq])
      omega
    · intro q hq
      show q.id < sys.nextId + 1
      simp only [List.append_nil, List.mem_append, List.mem_singleton] at hq
      rcases hq with hq | hq
      · have := hbound q (by simp [hq])
        omega
      · subst hq
        rw [hid]
        omega
  · obtain ⟨hnd, hbound⟩ := hwf
    rw [hpool] at hnd hbound
    rw [heq]
    have hid : (spawnedPart sys now p).id = p.id := (spawnedPart_fields sys now p).1
    constructor
    · show (((sys.particles ++ [spawnedPart sys now p]) ++ rest).map Particle.id).Nodup
      have heq2 : ((sys.particles ++ [spawnedPart sys now p]) ++ rest).map Particle.id
          = (sys.particles ++ p :: rest).map Particle.id := by
        simp [List.map_append, hid]
      rw [heq2]
      exact hnd
    · intro q hq
      show q.id < sys.nextId
      rcases List.mem_append.mp hq with hq1 | hq2
      · rcases List.mem_append.mp hq1 with hqa | hqb
        · exact hbound q (List.mem_append.mpr (Or.inl hqa))
        · rw [List.mem_singleton] at hqb
          subst hqb
          rw [hid]
          exact hbound p (List.mem_append.mpr (Or.inr (List.mem_cons_self _ _)))
      · exact hbound q (List.mem_append.mpr (Or.inr (List.mem_cons_of_mem _ hq2)))

theorem WF_emitLoop {α : Type} (fuel : ℕ) (sys : ParticleSystem α) (now : ℤ)
    (hwf : SysWF sys) : SysWF (emitLoop fuel sys now) := by
  induction fuel generalizing sys with
  | zero => exact hwf
  | succ n ih =>
    simp only [emitLoop]
    split
    · exact ih _ (WF_spawnParticle sys now hwf)
    · exact hwf

theorem WF_rateStage {α : Type} (sys : ParticleSystem α) (now : ℤ)
    (hwf : SysWF sys) : SysWF (rateStage sys now) := by
  unfold rateStage
  split
  · exact hwf
  · exact hwf

theorem WF_spawnParticles {α : Type} (sys : ParticleSystem α) (now : ℤ)
    (hwf : SysWF sys) : SysWF (spawnParticles sys now) :=
  WF_emitLoop _ _ now (WF_rateStage sys now hwf)

theorem WF_updateParticles {α : Type} (sys : ParticleSystem α) (now : ℤ)
    (hwf : SysWF sys) : SysWF (updateParticles sys now).1 := by
  obtain ⟨hnd, hbound⟩ := hwf
  have hids : ∀ l : List (Particle α),
      (l.map (fun p => p.update sys now)).map Particle.id = l.map Particle.id := by
    intro l
    induction l with
    | nil => rfl
    | cons a l ihl => simp [ihl]
  constructor
  · show (((sys.particles.map (fun p => p.update sys now)) ++ sys.pool).map Particle.id).Nodup
    simp only [List.map_append, hids]
    simpa [List.map_append] using hnd
  · intro q hq
    show q.id < sys.nextId
    rcases List.mem_append.mp hq with hq1 | hq2
    · obtain ⟨p, hp, hpq⟩ := List.mem_map.mp hq1
      subst hpq
      rw [update_id]
      exact hbound p (List.mem_append.mpr (Or.inl hp))
    · exact hbound q (List.mem_append.mpr (Or.inr hq2))

/-! Lemmas: which particles the spawn step can add, and invariants of the
convergence loop. -/

theorem emitLoop_mem {α : Type} (fuel : ℕ) (sys : ParticleSystem α) (now : ℤ) :
    ∀ q ∈ (emitLoop fuel sys now).particles,
      q ∈ sys.particles ∨ ∃ base, q = spawnedPart sys now base := by
  induction fuel generalizing sys with
  | zero => exact fun q hq => Or.inl hq
  | succ n ih =>
    simp only [emitLoop]
    split
    · intro q hq
      rcases ih _ q hq with hq1 | ⟨base, hb⟩
      · rcases spawnParticle_mem sys now q hq1 with h1 | h2
        · exact Or.inl h1
        · exact Or.inr h2
      · refine Or.inr ⟨base, ?_⟩
        rw [hb]
        exact spawnedPart_congr _ _ now base (frame_spawnParticle sys now).1
          (frame_spawnParticle sys now).2.1 (frame_spawnParticle sys now).2.2.1
    · exact fun q hq => Or.inl hq

theorem spawnParticles_mem {α : Type} (sys : ParticleSystem α) (now : ℤ) :
    ∀ q ∈ (spawnParticles sys now).particles,
      q ∈ sys.particles ∨ ∃ base, q = spawnedPart sys now base := by
  unfold spawnParticles
  intro q hq
  rcases emitLoop_mem _ _ now q hq with h1 | ⟨base, hb⟩
  · rw [(frame_rateStage sys now).2.2.2.2.2.1] at h1
    exact Or.inl h1
  · refine Or.inr ⟨base, ?_⟩
    rw [hb]
    exact spawnedPart_congr _ _ now base (frame_rateStage sys now).1
      (frame_rateStage sys now).2.1 (frame_rateStage sys now).2.2.1

theorem updateLoop_invariant {α : Type} (fuel : ℕ) (sys s2 : ParticleSystem α) (now : ℤ)
    (D0 : List DeathEvent) (hwf : SysWF sys)
    (hD : ∀ ev ∈ sys.deaths, ev ∈ D0 ∨ goodEvent ev)
    (h : updateLoop fuel sys now = some s2) :
    (∀ p ∈ s2.particles, p.aliveB now = true) ∧
    (∀ ev ∈ s2.deaths, ev ∈ D0 ∨ goodEvent ev) := by
  induction fuel generalizing sys with
  | zero => simp [updateLoop] at h
  | succ n ih =>
    have hwf1 := WF_removeDeadParticles sys now hwf
    have hwf2 := WF_spawnParticles (removeDeadParticles sys now) now hwf1
    have hwf3 := WF_updateParticles (spawnParticles (removeDeadParticles sys now) now) now hwf2
    have hnd1 : (sys.particles.map Particle.id).Nodup := by
      have h2 := hwf.1
      simp only [List.map_append] at h2
      exact h2.of_append_left
    have hD1 : ∀ ev ∈ (removeDeadParticles sys now).deaths, ev ∈ D0 ∨ goodEvent ev := by
      intro ev hev
      rcases removeDeadParticles_goodEvents sys now hnd1 ev hev with h1 | h2
      · exact hD ev h1
      · exact Or.inr h2
    have hD2 : ∀ ev ∈ (spawnParticles (removeDeadParticles sys now) now).deaths,
        ev ∈ D0 ∨ goodEvent ev := by
      rw [(frame_spawnParticles _ now).2.2.2.2]
      exact hD1
    have hD3 : ∀ ev ∈ (updateParticles (spawnParticles (removeDeadParticles sys now) now) now).1.deaths,
        ev ∈ D0 ∨ goodEvent ev := by
      rw [(frame_updateParticles _ now).2.2.2.2.2.2.2]
      exact hD2
    simp only [updateLoop] at h
    split at h
    · exact ih _ hwf3 hD3 h
    · rename_i hcond
      cases h
      refine ⟨?_, hD3⟩
      intro p hp
      have hcond2 : (updateParticles (spawnParticles (removeDeadParticles sys now) now) now).2 = false := by
        revert hcond
        cases (updateParticles (spawnParticles (removeDeadParticles sys now) now) now).2 <;> simp
      have hall := List.any_eq_false.mp hcond2
      have := hall p hp
      simpa using this

theorem updateLoop_frame {α : Type} (fuel : ℕ) (sys s2 : ParticleSystem α) (now : ℤ)
    (h : updateLoop fuel sys now = some s2) :
    configOf s2 = configOf sys ∧ s2.startTime = sys.startTime ∧
    s2.lastUpdateTime = sys.lastUpdateTime ∧ s2.initialized = sys.initialized := by
  induction fuel generalizing sys with
  | zero => simp [updateLoop] at h
  | succ n ih =>
    simp only [updateLoop] at h
    have hf1 := frame_removeDeadLoop now sys.particles.length sys
    have hf2 := frame_spawnParticles (removeDeadParticles sys now) now
    have hf3 := frame_updateParticles (spawnParticles (removeDeadParticles sys now) now) now
    split at h
    · have hr := ih _ h
      exact ⟨hr.1.trans (hf3.1.trans (hf2.1.trans hf1.1)),
             hr.2.1.trans (hf3.2.1.trans (hf2.2.1.trans hf1.2.1)),
             hr.2.2.1.trans (hf3.2.2.1.trans (hf2.2.2.1.trans hf1.2.2.1)),
             hr.2.2.2.trans (hf3.2.2.2.1.trans (hf2.2.2.2.1.trans hf1.2.2.2.1))⟩
    · cases h
      exact ⟨hf3.1.trans (hf2.1.trans hf1.1),
             hf3.2.1.trans (hf2.2.1.trans hf1.2.1),
             hf3.2.2.1.trans (hf2.2.2.1.trans hf1.2.2.1),
             hf3.2.2.2.1.trans (hf2.2.2.2.1.trans hf1.2.2.2.1)⟩

theorem updateLoop_lifetime {α : Type} (fuel : ℕ) (sys s2 : ParticleSystem α) (now : ℤ)
    (hf : ∀ f, sys.LifetimeOverTime = some f → ∀ d δ, f d δ ≠ 0)
    (hp : ∀ p ∈ sys.particles, p.lifetime ≠ 0)
    (h : updateLoop fuel sys now = some s2) :
    ∀ p ∈ s2.particles, p.lifetime ≠ 0 := by
  induction fuel generalizing sys with
  | zero => simp [updateLoop] at h
  | succ n ih =>
    simp only [updateLoop] at h
    have hLT1 : (removeDeadParticles sys now).LifetimeOverTime = sys.LifetimeOverTime :=
      configOf_LifetimeOverTime (frame_removeDeadLoop now sys.particles.length sys).1
    have hp1 : ∀ p ∈ (removeDeadParticles sys now).particles, p.lifetime ≠ 0 := by
      rw [removeDeadParticles_particles]
      intro p hpp
      exact hp p (List.mem_of_mem_filter hpp)
    have hp2 : ∀ p ∈ (spawnParticles (removeDeadParticles sys now) now).particles,
        p.lifetime ≠ 0 := by
      intro q hq
      rcases spawnParticles_mem _ now q hq with h1 | ⟨base, hb⟩
      · exact hp1 q h1
      · subst hb
        cases hL : (removeDeadParticles sys now).LifetimeOverTime with
        | none =>
          rw [(spawnedPart_lifetime_none _ now base hL).1]
          norm_num
        | some f =>
          rw [spawnedPart_lifetime_some _ now base f hL]
          exact hf f (hLT1 ▸ hL) _ _
    have hp3 : ∀ p ∈ (updateParticles (spawnParticles (removeDeadParticles sys now) now) now).1.particles,
        p.lifetime ≠ 0 := by
      intro q hq
      obtain ⟨p, hpp, rfl⟩ := List.mem_map.mp hq
      rw [update_lifetime]
      exact hp2 p hpp
    have hfS : ∀ f, (updateParticles (spawnParticles (removeDeadParticles sys now) now) now).1.LifetimeOverTime = some f →
        ∀ d δ, f d δ ≠ 0 := by
      intro f hfeq
      apply hf f
      rw [← hfeq]
      have e1 := configOf_LifetimeOverTime (frame_updateParticles (spawnParticles (removeDeadParticles sys now) now) now).1
      have e2 := configOf_LifetimeOverTime (frame_spawnParticles (removeDeadParticles sys now) now).1
      rw [e1, e2, hLT1]
    split at h
    · exact ih _ hfS hp3 h
    · cases h
      exact hp3

/-! Lemmas: the rotation step of the per-particle update. -/

@[simp] theorem applyColor_angle {α : Type} (sys : ParticleSystem α) (t : ℚ) (delta : ℤ)
    (q : Particle α) : (applyColor sys t delta q).angle = q.angle := by
  unfold applyColor
  split <;> rfl

theorem applyRotation_angle_some {α : Type} (sys : ParticleSystem α) (t : ℚ) (delta : ℤ)
    (q : Particle α) (f : Particle α → ℚ → ℤ → ℚ) (h : sys.RotationOverLifetime = some f) :
    (applyRotation sys t delta q).angle =
      (if 2 * mathPi < q.angle + f q t delta * seconds delta then
        q.angle + f q t delta * seconds delta - 2 * mathPi
       else if q.angle + f q t delta * seconds delta < 0 then
        q.angle + f q t delta * seconds delta + 2 * mathPi
       else q.angle + f q t delta * seconds delta) := by
  simp only [applyRotation, h]

theorem rotationInput_eq_some {α : Type} (sys : ParticleSystem α) (now : ℤ) (p : Particle α)
    (f : Particle α → ℚ → ℤ → ℚ) (h : sys.RotationOverLifetime = some f) :
    rotationInput sys now p =
      (applyScale sys (seconds (now - p.birthTime) / seconds p.lifetime) (now - p.lastUpdateTime)
        (applyMove (now - p.lastUpdateTime)
          (applyVelocity sys (seconds (now - p.birthTime) / seconds p.lifetime) (now - p.lastUpdateTime)
            (applyData sys (seconds (now - p.birthTime) / seconds p.lifetime) (now - p.lastUpdateTime)
              (applyUpdateFunc sys (seconds (now - p.birthTime) / seconds p.lifetime) (now - p.lastUpdateTime) p))))).angle +
      f (applyScale sys (seconds (now - p.birthTime) / seconds p.lifetime) (now - p.lastUpdateTime)
          (applyMove (now - p.lastUpdateTime)
            (applyVelocity sys (seconds (now - p.birthTime) / seconds p.lifetime) (now - p.lastUpdateTime)
              (applyData sys (seconds (now - p.birthTime) / seconds p.lifetime) (now - p.lastUpdateTime)
                (applyUpdateFunc sys (seconds (now - p.birthTime) / seconds p.lifetime) (now - p.lastUpdateTime) p)))))
        (seconds (now - p.birthTime) / seconds p.lifetime) (now - p.lastUpdateTime) *
      seconds (now - p.lastUpdateTime) := by
  simp only [rotationInput, h]

theorem update_angle_eq {α : Type} (sys : ParticleSystem α) (now : ℤ) (p : Particle α)
    (f : Particle α → ℚ → ℤ → ℚ) (hrot : sys.RotationOverLifetime = some f) :
    (p.update sys now).angle =
      (if 2 * mathPi < rotationInput sys now p then rotationInput sys now p - 2 * mathPi
       else if rotationInput sys now p < 0 then rotationInput sys now p + 2 * mathPi
       else rotationInput sys now p) := by
  have h0 : (p.update sys now).angle =
      (applyColor sys (seconds (now - p.birthTime) / seconds p.lifetime) (now - p.lastUpdateTime)
        (applyRotation sys (seconds (now - p.birthTime) / seconds p.lifetime) (now - p.lastUpdateTime)
          (applyScale sys (seconds (now - p.birthTime) / seconds p.lifetime) (now - p.lastUpdateTime)
            (applyMove (now - p.lastUpdateTime)
              (applyVelocity sys (seconds (now - p.birthTime) / seconds p.lifetime) (now - p.lastUpdateTime)
                (applyData sys (seconds (now - p.birthTime) / seconds p.lifetime) (now - p.lastUpdateTime)
                  (applyUpdateFunc sys (seconds (now - p.birthTime) / seconds p.lifetime) (now - p.lastUpdateTime) p))))))).angle := rfl
  rw [h0, applyColor_angle,
      applyRotation_angle_some sys (seconds (now - p.birthTime) / seconds p.lifetime)
        (now - p.lastUpdateTime) _ f hrot,
      ← rotationInput_eq_some sys now p f hrot]

/-! Claim theorems. -/

/-- C1: when ParticleSystem.Update converges and returns, the live set
contains no dead particle: every remaining particle has its isAlive flag
set and a death time strictly after now; and every death notification
recorded during the call was issued only after the particle had been
removed from the live set and returned to the pool. -/
theorem C1_update_returns_no_dead {α : Type} (sys s2 : ParticleSystem α) (now : ℤ)
    (fuel : ℕ) (hwf : SysWF sys) (h : sys.Update now fuel = some s2) :
    (∀ p ∈ s2.particles, p.isAlive = true ∧ now < p.deathTime) ∧
    (∀ ev ∈ s2.deaths, ev ∈ sys.deaths ∨ goodEvent ev) := by
  unfold ParticleSystem.Update at h
  obtain ⟨r, hr, hs2⟩ := Option.map_eq_some'.mp h
  have hwf0 : SysWF (if sys.initialized = true then sys else sys.init now) := by
    split <;> exact hwf
  have hD0 : ∀ ev ∈ (if sys.initialized = true then sys else sys.init now).deaths,
      ev ∈ sys.deaths ∨ goodEvent ev := by
    split <;> exact fun ev hev => Or.inl hev
  have hinv := updateLoop_invariant fuel _ r now sys.deaths hwf0 hD0 hr
  subst hs2
  constructor
  · intro p hp
    exact (aliveB_iff p now).mp (hinv.1 p hp)
  · exact hinv.2

/-- C1 witness: a concrete system with one dead and one alive particle;
after Update the dead particle is gone and notified, the alive one
remains. -/
theorem C1_update_returns_no_dead_witness :
    SysWF sysC1w ∧
    ((∀ p ∈ resC1w.particles, p.isAlive = true ∧ (5 : ℤ) < p.deathTime) ∧
     (∀ ev ∈ resC1w.deaths, ev ∈ sysC1w.deaths ∨ goodEvent ev)) :=
  ⟨by decide, C1_update_returns_no_dead sysC1w resC1w 5 2 (by decide) rfl⟩

/-- C2 counterexample: a particle recycled from the pool does not start
with rotation angle zero. In runC2 a particle accumulates angle one half,
dies, is recycled by a later spawn, and the freshly spawned particle
(birth time 3 seconds) still carries angle one half, not zero. -/
theorem C2_counterexample :
    runC2.map (fun s => s.particles.map (fun p => (p.angle, p.birthTime))) =
      some [((1 : ℚ) / 2, (3000000000 : ℤ))] ∧ ((1 : ℚ) / 2 ≠ 0) := by
  constructor
  · decide
  · decide

/-- C2 amended: at the moment a particle is spawned, every per-particle
field except the rotation angle is at its reset default: data none,
velocity zero, scale one, color white, isAlive set, and position zero
unless the emission-position function sets it. The rotation angle is not
reset and retains its value from the previous pool cycle. -/
theorem C2_spawn_reset_defaults {α : Type} (sys : ParticleSystem α) (now : ℤ)
    (hcap : (sys.particles.length : ℤ) < sys.MaxParticles) :
    ((spawnParticle sys now).particles.getLast?).map
        (fun p => (p.data, p.xVelocity, p.yVelocity, p.xScale, p.yScale, p.color, p.isAlive)) =
      some (none, 0, 0, 1, 1, GoColor.white, true) ∧
    (sys.EmissionPositionOverTime = none →
      ((spawnParticle sys now).particles.getLast?).map (fun p => (p.x, p.y)) = some (0, 0)) := by
  rcases spawnParticle_cases sys now with ⟨hc, -⟩ | ⟨-, hcase⟩
  · omega
  · obtain ⟨base, heq⟩ : ∃ base, (spawnParticle sys now).particles =
        sys.particles ++ [spawnedPart sys now base] := by
      rcases hcase with ⟨-, heq⟩ | ⟨p, rest, -, heq⟩
      · exact ⟨_, by rw [heq]⟩
      · exact ⟨_, by rw [heq]⟩
    rw [heq, List.getLast?_concat]
    obtain ⟨-, hAl, hdata, hxv, hyv, hxs, hys, hcol, -, -, -⟩ := spawnedPart_fields sys now base
    constructor
    · simp [hdata, hxv, hyv, hxs, hys, hcol, hAl]
    · intro hpos
      obtain ⟨hx, hy⟩ := spawnedPart_position_none sys now base hpos
      simp [hx, hy]

/-- C2 amended witness: a concrete spawn below the cap. -/
theorem C2_spawn_reset_defaults_witness :
    ((sysC2w.particles.length : ℤ) < sysC2w.MaxParticles) ∧
    (((spawnParticle sysC2w 0).particles.getLast?).map
        (fun p => (p.data, p.xVelocity, p.yVelocity, p.xScale, p.yScale, p.color, p.isAlive)) =
      some (none, 0, 0, 1, 1, GoColor.white, true) ∧
    (sysC2w.EmissionPositionOverTime = none →
      ((spawnParticle sysC2w 0).particles.getLast?).map (fun p => (p.x, p.y)) = some (0, 0))) :=
  ⟨by decide, C2_spawn_reset_defaults sysC2w 0 (by decide)⟩

/-- C3 counterexample: with RotationOverLifetime configured (constant
twenty radians per second) and a one second frame, the accumulated angle
twenty exceeds two pi, a single subtraction of two pi leaves twenty minus
two pi, which is still at least two pi, so the angle does not lie in the
interval from zero up to but excluding two pi. -/
theorem C3_counterexample :
    runC3.map (fun s => s.particles.map Particle.angle) = some [20 - 2 * mathPi] ∧
    ¬ (20 - 2 * mathPi < 2 * mathPi) := by
  constructor
  · decide
  · decide

/-- C3 amended: the wrap applies at most one full-turn correction, so when
RotationOverLifetime is configured the angle after a state advance lies in
the closed interval from zero to two pi provided the accumulated pre-wrap
angle lies between minus two pi and four pi; larger per-frame increments
escape the interval, as the counterexample shows. -/
theorem C3_rotation_wrap {α : Type} (sys : ParticleSystem α) (now : ℤ) (p : Particle α)
    (f : Particle α → ℚ → ℤ → ℚ) (hrot : sys.RotationOverLifetime = some f)
    (hlo : -(2 * mathPi) ≤ rotationInput sys now p)
    (hhi : rotationInput sys now p ≤ 4 * mathPi) :
    0 ≤ (p.update sys now).angle ∧ (p.update sys now).angle ≤ 2 * mathPi := by
  rw [update_angle_eq sys now p f hrot]
  by_cases h1 : 2 * mathPi < rotationInput sys now p
  · rw [if_pos h1]
    constructor
    · linarith
    · linarith
  · rw [if_neg h1]
    by_cases h2 : rotationInput sys now p < 0
    · rw [if_pos h2]
      constructor
      · linarith
      · linarith
    · rw [if_neg h2]
      constructor
      · linarith
      · linarith

/-- C3 amended witness: a concrete particle with angular velocity seven
radians per second over a one second frame. -/
theorem C3_rotation_wrap_witness :
    sysC3w.RotationOverLifetime = some (fun _ _ _ => (7 : ℚ)) ∧
    -(2 * mathPi) ≤ rotationInput sysC3w 1000000000 pw3 ∧
    rotationInput sysC3w 1000000000 pw3 ≤ 4 * mathPi ∧
    (0 ≤ (pw3.update sysC3w 1000000000).angle ∧
     (pw3.update sysC3w 1000000000).angle ≤ 2 * mathPi) :=
  ⟨rfl, by decide, by decide,
   C3_rotation_wrap sysC3w 1000000000 pw3 (fun _ _ _ => (7 : ℚ)) rfl (by decide) (by decide)⟩

/-- C4 counterexample: the rate contribution is not skipped when delta is
negative. After an update at time zero the accumulator of sysC4x is zero;
an update at time minus one second (delta negative) adds rate times delta
seconds, leaving the accumulator at minus five, so it is changed by the
rate function although time has not advanced. -/
theorem C4_counterexample :
    (sysC4x.Update 0 2).map (fun s => s.particlesToEmit) = some 0 ∧
    runC4.map (fun s => s.particlesToEmit) = some (-5) ∧ ((-5 : ℚ) ≠ 0) := by
  refine ⟨by decide, by decide, by decide⟩

/-- C4 amended: the contribution rate times delta seconds is added to the
accumulator unconditionally; when delta equals zero the contribution is
zero, so the accumulator entering the emission loop is unchanged by the
rate function; for negative delta a nonzero (negative for positive rates)
contribution is applied, as the counterexample shows. -/
theorem C4_rate_contribution_zero_delta {α : Type} (sys : ParticleSystem α) (now : ℤ)
    (h : now = sys.lastUpdateTime) :
    emissionContribution sys now = 0 ∧
    (rateStage sys now).particlesToEmit = sys.particlesToEmit := by
  have hz : seconds (now - sys.lastUpdateTime) = 0 := by
    rw [h]
    simp [seconds]
  have hc : emissionContribution sys now = 0 := by
    unfold emissionContribution
    split
    · rw [hz, mul_zero]
    · rfl
  exact ⟨hc, by rw [rateStage_particlesToEmit, hc, add_zero]⟩

/-- C4 amended witness: a concrete system updated at exactly its last
update time. -/
theorem C4_rate_contribution_zero_delta_witness :
    (7 : ℤ) = sysC4w.lastUpdateTime ∧
    (emissionContribution sysC4w 7 = 0 ∧
     (rateStage sysC4w 7).particlesToEmit = sysC4w.particlesToEmit) :=
  ⟨rfl, C4_rate_contribution_zero_delta sysC4w 7 rfl⟩

/-- C5: during the spawn step the accumulator is decremented by exactly one
per whole-particle spawn attempt (floor of the accumulator many attempts,
counted independently of whether the capacity check blocked the actual
spawn), the accumulator ends strictly below one, and the live count grows
by the number of attempts only up to the capacity: blocked attempts are
dropped, not queued. -/
theorem C5_accumulator_decrement {α : Type} (sys : ParticleSystem α) (now : ℤ) :
    (spawnParticles sys now).particlesToEmit < 1 ∧
    (spawnParticles sys now).particlesToEmit =
      sys.particlesToEmit + emissionContribution sys now -
        ((max ⌊sys.particlesToEmit + emissionContribution sys now⌋ 0 : ℤ) : ℚ) ∧
    ((spawnParticles sys now).particles.length : ℤ) =
      min ((sys.particles.length : ℤ) + max ⌊sys.particlesToEmit + emissionContribution sys now⌋ 0)
          (max sys.MaxParticles (sys.particles.length : ℤ)) := by
  unfold spawnParticles
  dsimp only
  have haval : (rateStage sys now).particlesToEmit =
      sys.particlesToEmit + emissionContribution sys now := rateStage_particlesToEmit sys now
  have hM : (rateStage sys now).MaxParticles = sys.MaxParticles :=
    configOf_MaxParticles (frame_rateStage sys now).1
  have hPl : (rateStage sys now).particles = sys.particles := (frame_rateStage sys now).2.2.2.2.2.1
  set a := sys.particlesToEmit + emissionContribution sys now with hadef
  by_cases h0 : 0 ≤ ⌊a⌋
  · have hfuelle : ((⌊(rateStage sys now).particlesToEmit⌋.toNat : ℕ) : ℤ) ≤
        ⌊(rateStage sys now).particlesToEmit⌋ := by
      rw [haval]
      omega
    obtain ⟨hpte, hlen⟩ := emitLoop_spec _ (rateStage sys now) now hfuelle
    rw [hpte, hlen, haval, hM, hPl]
    have hcast : ((⌊a⌋.toNat : ℕ) : ℤ) = ⌊a⌋ := Int.toNat_of_nonneg h0
    have hcastq : ((⌊a⌋.toNat : ℕ) : ℚ) = ((⌊a⌋ : ℤ) : ℚ) := by exact_mod_cast hcast
    refine ⟨?_, ?_, ?_⟩
    · rw [hcastq]
      have h2 := Int.lt_floor_add_one a
      have h3 : a < (⌊a⌋ : ℚ) + 1 := by exact_mod_cast h2
      linarith
    · rw [hcastq, max_eq_left h0]
    · rw [max_eq_left h0]
      omega
  · push_neg at h0
    have hfz : ⌊(rateStage sys now).particlesToEmit⌋.toNat = 0 := by
      rw [haval]
      omega
    rw [hfz]
    simp only [emitLoop]
    have hmax : max ⌊a⌋ 0 = 0 := max_eq_right h0.le
    refine ⟨?_, ?_, ?_⟩
    · rw [haval]
      have h2 := Int.lt_floor_add_one a
      have h3 : a < (⌊a⌋ : ℚ) + 1 := by exact_mod_cast h2
      have h4 : (⌊a⌋ : ℚ) + 1 ≤ 1 := by
        have : (⌊a⌋ : ℚ) ≤ 0 := by exact_mod_cast h0.le
        linarith
      linarith
    · rw [haval, hmax]
      push_cast
      ring
    · rw [hPl, hmax]
      omega

theorem applySpawns_fields {α : Type} (sys : ParticleSystem α) (nums : List ℤ) :
    (applySpawns sys nums).particlesToEmit = sys.particlesToEmit + (nums.sum : ℚ) ∧
    configOf (applySpawns sys nums) = configOf sys ∧
    (applySpawns sys nums).particles = sys.particles ∧
    (applySpawns sys nums).pool = sys.pool ∧
    (applySpawns sys nums).startTime = sys.startTime ∧
    (applySpawns sys nums).lastUpdateTime = sys.lastUpdateTime ∧
    (applySpawns sys nums).initialized = sys.initialized ∧
    (applySpawns sys nums).deaths = sys.deaths ∧
    (applySpawns sys nums).nextId = sys.nextId := by
  induction nums generalizing sys with
  | nil =>
    refine ⟨?_, rfl, rfl, rfl, rfl, rfl, rfl, rfl, rfl⟩
    simp [applySpawns]
  | cons n ns ih =>
    have h2 := ih (sys.Spawn n)
    have he : applySpawns sys (n :: ns) = applySpawns (sys.Spawn n) ns := rfl
    rw [he]
    refine ⟨?_, h2.2.1, h2.2.2.1, h2.2.2.2.1, h2.2.2.2.2.1, h2.2.2.2.2.2.1,
           h2.2.2.2.2.2.2.1, h2.2.2.2.2.2.2.2.1, h2.2.2.2.2.2.2.2.2⟩
    rw [h2.1]
    show sys.particlesToEmit + (n : ℚ) + (ns.sum : ℚ) = sys.particlesToEmit + ((n :: ns).sum : ℚ)
    push_cast [List.sum_cons]
    ring

/-- C6: for a fresh system with MaxParticles = N (N nonnegative), any
sequence of direct spawn requests totalling at least N followed by one
Update yields exactly N live particles: requests beyond the cap are
silently dropped and the live count never exceeds the cap. -/
theorem C6_spawn_honors_capacity {α : Type} (N : ℤ) (nums : List ℤ) (now : ℤ)
    (hN : 0 ≤ N) (hsum : N ≤ nums.sum) :
    ((applySpawns { NewSystem α with MaxParticles := N } nums).Update now 1).map
      (fun s => (s.NumParticles : ℤ)) = some N := by
  set base : ParticleSystem α := { NewSystem α with MaxParticles := N } with hbase
  set sal := applySpawns base nums with hsal
  have hfields := applySpawns_fields base nums
  have hpte : sal.particlesToEmit = (nums.sum : ℚ) := by
    have h1 : base.particlesToEmit = 0 := rfl
    have h2 : sal.particlesToEmit = (applySpawns base nums).particlesToEmit := rfl
    rw [h2, hfields.1, h1, zero_add]
  have hparticles : sal.particles = [] := by
    have h2 : sal.particles = (applySpawns base nums).particles := rfl
    rw [h2, hfields.2.2.1]
    rfl
  have hinit : sal.initialized = false := by
    have h2 : sal.initialized = (applySpawns base nums).initialized := rfl
    rw [h2, hfields.2.2.2.2.2.2.1]
    rfl
  have hconf : configOf sal = configOf base := hfields.2.1
  unfold ParticleSystem.Update
  rw [if_neg (by rw [hinit]; exact Bool.false_ne_true)]
  set s0 := sal.init now with hs0
  have hs0conf : configOf s0 = configOf base := hconf
  have hs0particles : s0.particles = [] := hparticles
  have hs0pte : s0.particlesToEmit = (nums.sum : ℚ) := hpte
  have hrd : removeDeadParticles s0 now = s0 := by
    unfold removeDeadParticles
    rw [hs0particles]
    rfl
  have hrate : s0.EmissionRateOverTime = none := by
    rw [configOf_EmissionRateOverTime hs0conf]
    rfl
  have hrs : rateStage s0 now = s0 := by
    simp only [rateStage, hrate]
  have hML : s0.MaxParticles = N := by
    rw [configOf_MaxParticles hs0conf]
  have hLT : s0.LifetimeOverTime = none := by
    rw [configOf_LifetimeOverTime hs0conf]
    rfl
  have hUF : s0.UpdateFunc = none := by
    rw [configOf_UpdateFunc hs0conf]
    rfl
  have hfloor : ⌊s0.particlesToEmit⌋ = nums.sum := by
    rw [hs0pte]
    exact Int.floor_intCast _
  have hsumnn : (0 : ℤ) ≤ nums.sum := le_trans hN hsum
  have hfuel : ((⌊s0.particlesToEmit⌋.toNat : ℕ) : ℤ) ≤ ⌊s0.particlesToEmit⌋ := by
    rw [hfloor]
    omega
  obtain ⟨hpteL, hlenL⟩ := emitLoop_spec _ s0 now hfuel
  have hsp : spawnParticles s0 now = emitLoop (⌊s0.particlesToEmit⌋.toNat) s0 now := by
    unfold spawnParticles
    rw [hrs]
  have hSPlen : ((spawnParticles s0 now).particles.length : ℤ) = N := by
    rw [hsp, hlenL, hs0particles, hML, hfloor]
    simp only [List.length_nil, Nat.cast_zero, zero_add]
    omega
  have hallalive : ∀ q ∈ (spawnParticles s0 now).particles,
      q.isAlive = true ∧ q.deathTime = now + 1000000000 := by
    intro q hq
    rcases spawnParticles_mem s0 now q hq with h1 | ⟨b, hb⟩
    · rw [hs0particles] at h1
      cases h1
    · subst hb
      exact ⟨(spawnedPart_fields s0 now b).2.1, (spawnedPart_lifetime_none s0 now b hLT).2⟩
  have hSPconf : configOf (spawnParticles s0 now) = configOf s0 := (frame_spawnParticles s0 now).1
  have hSPUF : (spawnParticles s0 now).UpdateFunc = none := by
    rw [configOf_UpdateFunc hSPconf, hUF]
  have hany : (updateParticles (spawnParticles s0 now) now).2 = false := by
    show ((spawnParticles s0 now).particles.map (fun p => p.update (spawnParticles s0 now) now)).any
      (fun p => !(p.aliveB now)) = false
    rw [List.any_eq_false]
    intro q hq
    obtain ⟨p, hp, rfl⟩ := List.mem_map.mp hq
    obtain ⟨hAl, hDt⟩ := hallalive p hp
    have h1 : (p.update (spawnParticles s0 now) now).isAlive = true :=
      (update_isAlive_of_updateFuncNone p (spawnParticles s0 now) now hSPUF).trans hAl
    have h2 : (p.update (spawnParticles s0 now) now).deathTime = p.deathTime :=
      update_deathTime p (spawnParticles s0 now) now
    have halive : (p.update (spawnParticles s0 now) now).aliveB now = true := by
      rw [aliveB_iff]
      refine ⟨h1, ?_⟩
      rw [h2, hDt]
      omega
    simp [halive]
  simp only [updateLoop]
  rw [hrd, hany]
  simp only [Bool.false_eq_true, if_false, Option.map_some]
  show some ((updateParticles (spawnParticles s0 now) now).1.particles.length : ℤ) = some N
  rw [show (updateParticles (spawnParticles s0 now) now).1.particles =
      (spawnParticles s0 now).particles.map (fun p => p.update (spawnParticles s0 now) now) from rfl]
  rw [List.length_map]
  rw [hSPlen]

/-- C6 witness: cap two, one direct request of three, one update. -/
theorem C6_spawn_honors_capacity_witness :
    (0 : ℤ) ≤ 2 ∧ (2 : ℤ) ≤ ([3] : List ℤ).sum ∧
    ((applySpawns { NewSystem Unit with MaxParticles := 2 } [3]).Update 0 1).map
      (fun s => (s.NumParticles : ℤ)) = some 2 :=
  ⟨by decide, by decide, C6_spawn_honors_capacity 2 [3] 0 (by decide) (by decide)⟩

/-- C7: in the reclaim step, every death notification is issued only after
the particle has been removed from the live set and put into the pool (its
id is absent from the recorded live set and present in the recorded pool,
so a NumParticles query inside the callback already reflects the removal),
and DeathFunc fires exactly once for every dead particle and never for a
live one. -/
theorem C7_death_notification_order {α : Type} (sys : ParticleSystem α) (now : ℤ)
    (hnd : (sys.particles.map Particle.id).Nodup) (hdf : sys.DeathFunc = true) :
    (∀ ev ∈ (removeDeadParticles sys now).deaths, ev ∈ sys.deaths ∨ goodEvent ev) ∧
    (∀ p ∈ sys.particles, p.aliveB now = false →
      ((removeDeadParticles sys now).deaths.map DeathEvent.pid).count p.id =
        (sys.deaths.map DeathEvent.pid).count p.id + 1) ∧
    (∀ p ∈ sys.particles, p.aliveB now = true →
      ((removeDeadParticles sys now).deaths.map DeathEvent.pid).count p.id =
        (sys.deaths.map DeathEvent.pid).count p.id) := by
  have hperm : ∀ a : ℕ,
      ((((sys.particles.filter (fun q => !(q.aliveB now))).reverse).map Particle.id).count a) =
      (((sys.particles.filter (fun q => !(q.aliveB now))).map Particle.id).count a) := by
    intro a
    exact ((List.reverse_perm _).map Particle.id).count_eq a
  refine ⟨removeDeadParticles_goodEvents sys now hnd, ?_, ?_⟩
  · intro p hp hdead
    rw [removeDeadParticles_deathsMap sys now hdf, List.count_append, hperm]
    have hsub : ((sys.particles.filter (fun q => !(q.aliveB now))).map Particle.id).Sublist
        (sys.particles.map Particle.id) := (List.filter_sublist _).map _
    have hndf : ((sys.particles.filter (fun q => !(q.aliveB now))).map Particle.id).Nodup :=
      hnd.sublist hsub
    have hmem : p.id ∈ (sys.particles.filter (fun q => !(q.aliveB now))).map Particle.id :=
      List.mem_map.mpr ⟨p, List.mem_filter.mpr ⟨hp, by rw [hdead]; rfl⟩, rfl⟩
    rw [List.count_eq_one_of_mem hndf hmem]
  · intro p hp halive
    rw [removeDeadParticles_deathsMap sys now hdf, List.count_append, hperm]
    have hzero : ((sys.particles.filter (fun q => !(q.aliveB now))).map Particle.id).count p.id = 0 := by
      rw [List.count_eq_zero]
      intro hmem
      obtain ⟨q, hqf, hqid⟩ := List.mem_map.mp hmem
      have hq : q ∈ sys.particles := List.mem_of_mem_filter hqf
      have hqdead : q.aliveB now = false := by
        have h2 := List.of_mem_filter hqf
        simpa using h2
      have heq : q = p := List.inj_on_of_nodup_map hnd hq hp hqid
      rw [heq, halive] at hqdead
      cases hqdead
    rw [hzero, add_zero]

/-- C7 witness: a concrete system with one dead and one alive particle. -/
theorem C7_death_notification_order_witness :
    ((sysC7w.particles.map Particle.id).Nodup ∧ sysC7w.DeathFunc = true) ∧
    ((∀ ev ∈ (removeDeadParticles sysC7w 5).deaths, ev ∈ sysC7w.deaths ∨ goodEvent ev) ∧
     (∀ p ∈ sysC7w.particles, p.aliveB 5 = false →
       ((removeDeadParticles sysC7w 5).deaths.map DeathEvent.pid).count p.id =
         (sysC7w.deaths.map DeathEvent.pid).count p.id + 1) ∧
     (∀ p ∈ sysC7w.particles, p.aliveB 5 = true →
       ((removeDeadParticles sysC7w 5).deaths.map DeathEvent.pid).count p.id =
         (sysC7w.deaths.map DeathEvent.pid).count p.id)) :=
  ⟨⟨by decide, rfl⟩, C7_death_notification_order sysC7w 5 (by decide) rfl⟩

/-- C9: Reset kills and reclaims every live particle with exactly one
death notification per particle in the live set, leaves zero live
particles and a zero emission accumulator, re-arms lazy initialization so
that the next Update captures its timestamp as the new start time, and
leaves the configured behavior functions and the cap unchanged. -/
theorem C9_reset_clears_state {α : Type} (sys : ParticleSystem α) (now : ℤ)
    (hnd : (sys.particles.map Particle.id).Nodup) (hdf : sys.DeathFunc = true) :
    (sys.Reset now).NumParticles = 0 ∧
    (sys.Reset now).particlesToEmit = 0 ∧
    (sys.Reset now).initialized = false ∧
    configOf (sys.Reset now) = configOf sys ∧
    (∀ p ∈ sys.particles, ((sys.Reset now).deaths.map DeathEvent.pid).count p.id =
      (sys.deaths.map DeathEvent.pid).count p.id + 1) ∧
    (∀ now2 fuel s2, (sys.Reset now).Update now2 fuel = some s2 → s2.startTime = now2) := by
  have hkilled : (sys.Reset now).deaths =
      (removeDeadParticles { sys with particles := sys.particles.map (fun p => { p with isAlive := false }) } now).deaths := rfl
  refine ⟨rfl, rfl, rfl, ?_, ?_, ?_⟩
  · exact (frame_removeDeadLoop now
      ({ sys with particles := sys.particles.map (fun p => { p with isAlive := false }) } : ParticleSystem α).particles.length
      { sys with particles := sys.particles.map (fun p => { p with isAlive := false }) }).1
  · intro p hp
    set killed : ParticleSystem α :=
      { sys with particles := sys.particles.map (fun p => { p with isAlive := false }) } with hkdef
    have hdfk : killed.DeathFunc = true := hdf
    have hall : ∀ q ∈ killed.particles, (!(q.aliveB now)) = true := by
      intro q hq
      obtain ⟨b, hb, rfl⟩ := List.mem_map.mp hq
      simp [Particle.aliveB]
    have hfilter : killed.particles.filter (fun q => !(q.aliveB now)) = killed.particles :=
      List.filter_eq_self.mpr hall
    have hmapid : killed.particles.map Particle.id = sys.particles.map Particle.id := by
      show (sys.particles.map (fun p => { p with isAlive := false })).map Particle.id =
        sys.particles.map Particle.id
      rw [List.map_map]
      rfl
    rw [hkilled, removeDeadParticles_deathsMap killed now hdfk, List.count_append]
    have hperm : (((killed.particles.filter (fun q => !(q.aliveB now))).reverse).map Particle.id).count p.id =
        ((killed.particles.filter (fun q => !(q.aliveB now))).map Particle.id).count p.id :=
      ((List.reverse_perm _).map Particle.id).count_eq p.id
    rw [hperm, hfilter, hmapid]
    have hmem : p.id ∈ sys.particles.map Particle.id := List.mem_map.mpr ⟨p, hp, rfl⟩
    rw [List.count_eq_one_of_mem hnd hmem]
  · intro now2 fuel s2 h
    unfold ParticleSystem.Update at h
    rw [if_neg (by exact Bool.false_ne_true)] at h
    obtain ⟨r, hr, hs2⟩ := Option.map_eq_some'.mp h
    have hfr := updateLoop_frame fuel _ r now2 hr
    have hst : r.startTime = now2 := by
      rw [hfr.2.1]
      rfl
    subst hs2
    exact hst

/-- C9 witness: a concrete system with one alive particle and a death
callback. -/
theorem C9_reset_clears_state_witness :
    ((sysC9w.particles.map Particle.id).Nodup ∧ sysC9w.DeathFunc = true) ∧
    ((sysC9w.Reset 0).NumParticles = 0 ∧
     (sysC9w.Reset 0).particlesToEmit = 0 ∧
     (sysC9w.Reset 0).initialized = false ∧
     configOf (sysC9w.Reset 0) = configOf sysC9w ∧
     (∀ p ∈ sysC9w.particles, ((sysC9w.Reset 0).deaths.map DeathEvent.pid).count p.id =
       (sysC9w.deaths.map DeathEvent.pid).count p.id + 1) ∧
     (∀ now2 fuel s2, (sysC9w.Reset 0).Update now2 fuel = some s2 → s2.startTime = now2)) :=
  ⟨⟨by decide, rfl⟩, C9_reset_clears_state sysC9w 0 (by decide) rfl⟩

/-- C10: the normalized age is elapsed seconds divided by lifetime seconds
with no guard against a zero divisor; under the precondition that the
lifetime function never returns zero (the one second default is nonzero
automatically) every particle in the system after any converged Update has
a nonzero lifetime, so every division performed by the per-particle update
and by ForEachParticle has a nonzero divisor. -/
theorem C10_normalized_age_divisor {α : Type} (sys s2 : ParticleSystem α) (now : ℤ)
    (fuel : ℕ)
    (hf : ∀ f, sys.LifetimeOverTime = some f → ∀ d δ, f d δ ≠ 0)
    (hp : ∀ p ∈ sys.particles, p.lifetime ≠ 0)
    (h : sys.Update now fuel = some s2) :
    (∀ p ∈ s2.particles, p.lifetime ≠ 0 ∧ seconds p.lifetime ≠ 0) ∧
    (∀ now2, ∀ v ∈ s2.ForEachParticle now2, seconds v.1.lifetime ≠ 0) := by
  unfold ParticleSystem.Update at h
  obtain ⟨r, hr, hs2⟩ := Option.map_eq_some'.mp h
  have hf0 : ∀ f, (if sys.initialized = true then sys else sys.init now).LifetimeOverTime = some f →
      ∀ d δ, f d δ ≠ 0 := by
    split <;> exact hf
  have hp0 : ∀ p ∈ (if sys.initialized = true then sys else sys.init now).particles,
      p.lifetime ≠ 0 := by
    split <;> exact hp
  have hlt := updateLoop_lifetime fuel _ r now hf0 hp0 hr
  subst hs2
  have hmain : ∀ p ∈ r.particles, p.lifetime ≠ 0 ∧ seconds p.lifetime ≠ 0 := by
    intro p hp2
    refine ⟨hlt p hp2, ?_⟩
    intro hz
    exact hlt p hp2 ((seconds_eq_zero_iff _).mp hz)
  refine ⟨hmain, ?_⟩
  intro now2 v hv
  obtain ⟨p, hp2, rfl⟩ := List.mem_map.mp hv
  exact (hmain p hp2).2

/-- C10 witness: a fresh system updated once at time zero. -/
theorem C10_normalized_age_divisor_witness :
    (∀ p ∈ (NewSystem Unit).particles, p.lifetime ≠ 0) ∧
    ((∀ p ∈ resC10w.particles, p.lifetime ≠ 0 ∧ seconds p.lifetime ≠ 0) ∧
     (∀ now2, ∀ v ∈ resC10w.ForEachParticle now2, seconds v.1.lifetime ≠ 0)) :=
  ⟨by decide,
   C10_normalized_age_divisor (NewSystem Unit) resC10w 0 1 (fun f hcon => nomatch hcon)
     (by decide) rfl⟩

/-- C8: Normalize signals the unrecoverable-error case (modelled as none)
exactly on a zero-magnitude vector and otherwise returns the vector scaled
by the reciprocal of its magnitude, a unit vector; TryNormalize returns
the input unchanged with false on the zero-magnitude vector and the same
unit vector with true otherwise. -/
theorem C8_vector_normalize (v : Vector) :
    (v.Magnitude = 0 → v.Normalize = none ∧ v.TryNormalize = (v, false)) ∧
    (v.Magnitude ≠ 0 →
      v.TryNormalize = (v.Multiply (1 / v.Magnitude), true) ∧
      v.Normalize = some (v.Multiply (1 / v.Magnitude)) ∧
      (v.Multiply (1 / v.Magnitude)).Magnitude = 1) := by
  constructor
  · intro h
    have hTN : v.TryNormalize = (v, false) := by
      unfold Vector.TryNormalize
      rw [if_pos h]
    refine ⟨?_, hTN⟩
    unfold Vector.Normalize
    rw [hTN]
    rfl
  · intro h
    have hscale : Vector.mk (v.X / v.Magnitude) (v.Y / v.Magnitude) =
        v.Multiply (1 / v.Magnitude) := by
      unfold Vector.Multiply
      rw [mul_one_div, mul_one_div]
    have hTN : v.TryNormalize = (v.Multiply (1 / v.Magnitude), true) := by
      unfold Vector.TryNormalize
      rw [if_neg h, hscale]
    refine ⟨hTN, ?_, ?_⟩
    · unfold Vector.Normalize
      rw [hTN]
      rfl
    · have hnn : (0 : ℝ) ≤ v.X * v.X + v.Y * v.Y :=
        add_nonneg (mul_self_nonneg _) (mul_self_nonneg _)
      have hm2 : v.Magnitude * v.Magnitude = v.X * v.X + v.Y * v.Y := Real.mul_self_sqrt hnn
      have hmul : (v.Multiply (1 / v.Magnitude)).Magnitude =
          Real.sqrt ((v.X * (1 / v.Magnitude)) * (v.X * (1 / v.Magnitude)) +
            (v.Y * (1 / v.Magnitude)) * (v.Y * (1 / v.Magnitude))) := rfl
      rw [hmul]
      have harg : (v.X * (1 / v.Magnitude)) * (v.X * (1 / v.Magnitude)) +
          (v.Y * (1 / v.Magnitude)) * (v.Y * (1 / v.Magnitude)) =
          (v.X * v.X + v.Y * v.Y) / (v.Magnitude * v.Magnitude) := by
        field_simp
      rw [harg, ← hm2, div_self (mul_ne_zero h h), Real.sqrt_one]

/-- C8 witness: the zero vector fails to normalize; the vector with
components three and four normalizes to a unit vector. -/
theorem C8_vector_normalize_witness :
    Vector.Magnitude ⟨0, 0⟩ = 0 ∧
    (Vector.Normalize ⟨0, 0⟩ = none ∧ Vector.TryNormalize ⟨0, 0⟩ = (⟨0, 0⟩, false)) ∧
    Vector.Magnitude ⟨3, 4⟩ ≠ 0 ∧
    (Vector.TryNormalize ⟨3, 4⟩ = (Vector.Multiply ⟨3, 4⟩ (1 / Vector.Magnitude ⟨3, 4⟩), true) ∧
     Vector.Normalize ⟨3, 4⟩ = some (Vector.Multiply ⟨3, 4⟩ (1 / Vector.Magnitude ⟨3, 4⟩)) ∧
     (Vector.Multiply ⟨3, 4⟩ (1 / Vector.Magnitude ⟨3, 4⟩)).Magnitude = 1) := by
  have hz : Vector.Magnitude ⟨0, 0⟩ = 0 := by
    unfold Vector.Magnitude
    simp
  have hm : Vector.Magnitude ⟨3, 4⟩ = 5 := by
    unfold Vector.Magnitude
    rw [show ((3 : ℝ) * 3 + 4 * 4) = 5 ^ 2 by norm_num]
    exact Real.sqrt_sq (by norm_num)
  refine ⟨hz, (C8_vector_normalize ⟨0, 0⟩).1 hz, ?_, ?_⟩
  · rw [hm]
    norm_num
  · refine (C8_vector_normalize ⟨3, 4⟩).2 ?_
    rw [hm]
    norm_num
